import Mathlib

/-!
Verification development for the DTA sensitivity-analysis scripts
(`DTA_sensitivity_analysis.py`, `change_link_info.py`).

The embedding models pandas DataFrames as `Table` (a column schema plus a
list of rows); a `Row` is an association list from column names to `Value`s,
where a missing column reads as `Value.null` (pandas NaN/None).  Numeric cell
values are modelled as integers (`Value.num : Int`); the scripts only
subtract, take absolute values and compare against a threshold, so the
algebra is the same as for the floats in the CSV files.

The filesystem the scripts read and write is modelled as `FS`, a finite map
from path strings to tables.  The external DTALite engine
(`run_dtalite_simulation` / `dta.assignment`) is out of scope per the spec
and is passed in as an opaque `engine : String → FS → FS` parameter.
-/

namespace DTA

/-- A cell value: Python `None`/NaN, a number, or a string. -/
inductive Value where
  | null : Value
  | num : Int → Value
  | str : String → Value
deriving DecidableEq, Repr

/-- Numeric view of a cell (used where the scripts do arithmetic). -/
def Value.toInt : Value → Int
  | Value.num q => q
  | _ => 0

/-- Absolute value, as `Series.abs()` computes it on a numeric column. -/
def intAbs (q : Int) : Int := if q < 0 then -q else q

/-- Column subtraction `after - before` on two numeric cells. -/
def vsub (a b : Value) : Value := Value.num (a.toInt - b.toInt)

/-- One DataFrame row: an association list of column name / value pairs. -/
abbrev Row := List (String × Value)

/-- Read column `c` of a row; a column absent from the row reads as null. -/
def getCol (r : Row) (c : String) : Value :=
  match r.find? (fun p => decide (p.1 = c)) with
  | some p => p.2
  | none => Value.null

/-- Whether the row has an entry for column `c`. -/
def hasCol (r : Row) (c : String) : Bool :=
  r.any (fun p => decide (p.1 = c))

/-- Write value `v` into column `c` of a row (adding the column if absent). -/
def setCol (r : Row) (c : String) (v : Value) : Row :=
  if hasCol r c then r.map (fun p => if p.1 = c then (c, v) else p)
  else r ++ [(c, v)]

/-- A DataFrame: the column schema and the rows. -/
structure Table where
  schema : List String
  rows : List Row
deriving DecidableEq, Repr

/-- The filesystem: a finite map from CSV paths to their tabular contents. -/
abbrev FS := List (String × Table)

/-- `pd.read_csv`: look a path up in the filesystem. -/
def fsRead (fs : FS) (p : String) : Option Table :=
  match fs.find? (fun q => decide (q.1 = p)) with
  | some q => some q.2
  | none => none

/-- `DataFrame.to_csv`: overwrite (or create) the file at path `p`. -/
def fsWrite (fs : FS) (p : String) (t : Table) : FS :=
  if fs.any (fun q => decide (q.1 = p)) then
    fs.map (fun q => if q.1 = p then (p, t) else q)
  else fs ++ [(p, t)]

/-! ### Basic row lemmas -/

theorem getCol_nil (c : String) : getCol [] c = Value.null := rfl

theorem getCol_cons (p : String × Value) (ps : Row) (c : String) :
    getCol (p :: ps) c = if p.1 = c then p.2 else getCol ps c := by
  by_cases h : p.1 = c <;> simp [getCol, List.find?, h]

theorem hasCol_nil (c : String) : hasCol [] c = false := rfl

theorem hasCol_cons (p : String × Value) (ps : Row) (c : String) :
    hasCol (p :: ps) c = (decide (p.1 = c) || hasCol ps c) := by
  simp [hasCol]

theorem getCol_map_replace_self (r : Row) (c : String) (v : Value)
    (h : hasCol r c = true) :
    getCol (r.map (fun p => if p.1 = c then (c, v) else p)) c = v := by
  induction r with
  | nil => simp [hasCol] at h
  | cons p ps ih =>
    by_cases hp : p.1 = c
    · simp [getCol_cons, hp]
    · rw [hasCol_cons] at h
      simp only [hp, decide_False, Bool.false_or] at h
      simp only [List.map_cons, if_neg hp, getCol_cons, hp, if_neg, not_false_iff]
      exact ih h

theorem getCol_append_single_self (r : Row) (c : String) (v : Value)
    (h : hasCol r c = false) :
    getCol (r ++ [(c, v)]) c = v := by
  induction r with
  | nil => simp [getCol_cons]
  | cons p ps ih =>
    rw [hasCol_cons] at h
    simp only [Bool.or_eq_false_iff, decide_eq_false_iff_not] at h
    simp only [List.cons_append, getCol_cons, h.1, if_neg, not_false_iff]
    exact ih h.2

theorem getCol_map_replace_ne (r : Row) (c c' : String) (v : Value)
    (h : c' ≠ c) :
    getCol (r.map (fun p => if p.1 = c then (c, v) else p)) c' = getCol r c' := by
  induction r with
  | nil => rfl
  | cons p ps ih =>
    by_cases hp : p.1 = c
    · have h1 : ¬ c = c' := fun hh => h hh.symm
      have h2 : ¬ p.1 = c' := by rw [hp]; exact h1
      simp only [List.map_cons, if_pos hp, getCol_cons, h1, if_neg, not_false_iff,
        h2]
      exact ih
    · simp only [List.map_cons, if_neg hp, getCol_cons]
      by_cases hp' : p.1 = c'
      · simp [hp']
      · simp only [hp', if_neg, not_false_iff]
        exact ih

theorem getCol_append_single_ne (r : Row) (c c' : String) (v : Value)
    (h : c' ≠ c) :
    getCol (r ++ [(c, v)]) c' = getCol r c' := by
  induction r with
  | nil =>
    have h1 : ¬ c = c' := fun hh => h hh.symm
    simp [getCol_cons, h1]
  | cons p ps ih =>
    simp only [List.cons_append, getCol_cons]
    by_cases hp' : p.1 = c'
    · simp [hp']
    · simp only [hp', if_neg, not_false_iff]
      exact ih

theorem getCol_setCol_self (r : Row) (c : String) (v : Value) :
    getCol (setCol r c v) c = v := by
  unfold setCol
  by_cases h : hasCol r c
  · rw [if_pos h]; exact getCol_map_replace_self r c v h
  · rw [if_neg h]
    exact getCol_append_single_self r c v (Bool.not_eq_true _ ▸ eq_false_of_ne_true h)

theorem getCol_setCol_ne (r : Row) (c c' : String) (v : Value) (h : c' ≠ c) :
    getCol (setCol r c v) c' = getCol r c' := by
  unfold setCol
  by_cases hc : hasCol r c
  · rw [if_pos hc]; exact getCol_map_replace_ne r c c' v h
  · rw [if_neg hc]; exact getCol_append_single_ne r c c' v h

theorem hasCol_setCol_self (r : Row) (c : String) (v : Value) :
    hasCol (setCol r c v) c = true := by
  unfold setCol
  by_cases hc : hasCol r c
  · rw [if_pos hc]
    simp only [hasCol, List.any_eq_true] at hc ⊢
    obtain ⟨p, hp, hpc⟩ := hc
    simp only [decide_eq_true_eq] at hpc
    exact ⟨(c, v), List.mem_map.mpr ⟨p, hp, by simp [hpc]⟩, by simp⟩
  · rw [if_neg hc]
    simp [hasCol]

theorem setCol_setCol_self (r : Row) (c : String) (v w : Value) :
    setCol (setCol r c v) c w = setCol r c w := by
  by_cases hc : hasCol r c
  · have h1 : setCol r c v = r.map (fun p => if p.1 = c then (c, v) else p) := by
      simp [setCol, hc]
    have h2 := hasCol_setCol_self r c v
    rw [h1] at h2
    rw [h1]
    simp only [setCol, h2, if_pos, hc, List.map_map]
    apply List.map_congr_left
    intro p _
    by_cases hp : p.1 = c <;> simp [Function.comp, hp]
  · have h1 : setCol r c v = r ++ [(c, v)] := by simp [setCol, hc]
    have h2 := hasCol_setCol_self r c v
    rw [h1] at h2
    have hmem : ∀ p ∈ r, ¬ p.1 = c := by
      intro p hp hpc
      apply hc
      simp only [hasCol, List.any_eq_true]
      exact ⟨p, hp, by simp [hpc]⟩
    rw [h1]
    simp only [setCol, h2, if_pos, hc, if_neg, Bool.false_eq_true, not_false_iff]
    rw [List.map_append]
    have h3 : r.map (fun p => if p.1 = c then (c, w) else p) = r := by
      conv_rhs => rw [← List.map_id r]
      apply List.map_congr_left
      intro p hp
      simp [hmem p hp]
    simp [h3]

/-! ### Link Editor: patch application (`sort_and_rewrite_GMNS_links`)

One `Mod` is one Python modification dict: an ordered association list of
attribute name / value pairs.  `mod.get('from_node_id')` returns `None`
both when the key is absent and when it is mapped to `None`; `modGet`
mirrors that. -/

abbrev Mod := List (String × Value)

/-- Python `mod.get(c)` followed by the `is None` test of the script:
`some v` when the dict holds a non-`None` value for `c`. -/
def modGet (m : Mod) (c : String) : Option Value :=
  match m.find? (fun p => decide (p.1 = c)) with
  | some p => if p.2 = Value.null then none else some p.2
  | none => none

/-- The validated identification key of a modification, or `none` when the
script would skip it ("lacks 'from_node_id' or 'to_node_id'"). -/
def modKeyVals (m : Mod) : Option (Value × Value) :=
  match modGet m "from_node_id", modGet m "to_node_id" with
  | some f, some t => some (f, t)
  | _, _ => none

/-- The boolean mask
`(links_df['from_node_id'] == f) & (links_df['to_node_id'] == t)`
evaluated at one row. -/
def rowMatches (f t : Value) (r : Row) : Bool :=
  decide (getCol r "from_node_id" = f) && decide (getCol r "to_node_id" = t)

/-- One iteration of the inner `for key, value in mod.items()` loop, at one
row: identification keys are skipped, other attributes are written on the
rows selected by the mask.  (Creating a missing column with value `None` on
the unselected rows is the identity for `getCol`, whose default is null, so
it is not represented at row level; the schema update is tracked in
`modSchemaStep`.) -/
def modAttrStep (f t : Value) (r : Row) (kv : String × Value) : Row :=
  if kv.1 = "from_node_id" ∨ kv.1 = "to_node_id" then r
  else if rowMatches f t r then setCol r kv.1 kv.2 else r

/-- The whole attribute loop of one modification, at one row. -/
def applyModToRow (f t : Value) (m : Mod) (r : Row) : Row :=
  m.foldl (modAttrStep f t) r

/-- One modification applied to the row list, exactly as the script does it:
skip when the key is missing (`modKeyVals = none`), skip when the mask
selects no row (`mask.sum() == 0`), otherwise run the attribute loop
column-wise over all rows. -/
def applyModRows (rows : List Row) (m : Mod) : List Row :=
  match modKeyVals m with
  | none => rows
  | some (f, t) =>
    if rows.any (rowMatches f t) then
      m.foldl
        (fun rs kv =>
          if kv.1 = "from_node_id" ∨ kv.1 = "to_node_id" then rs
          else rs.map (fun r => if rowMatches f t r then setCol r kv.1 kv.2 else r))
        rows
    else rows

/-- The outer `for mod in link_modifications` loop over the rows. -/
def applyMods (mods : List Mod) (rows : List Row) : List Row :=
  mods.foldl applyModRows rows

/-- Schema effect of one modification: `links_df[key] = None` appends any
attribute column not yet present (only when the modification is applied). -/
def modSchemaStep (rows : List Row) (schema : List String) (m : Mod) :
    List String :=
  match modKeyVals m with
  | none => schema
  | some (f, t) =>
    if rows.any (rowMatches f t) then
      m.foldl
        (fun s kv =>
          if kv.1 = "from_node_id" ∨ kv.1 = "to_node_id" then s
          else if kv.1 ∈ s then s else s ++ [kv.1])
        schema
    else schema

/-- One modification applied to the full DataFrame. -/
def applyModTable (t : Table) (m : Mod) : Table :=
  ⟨modSchemaStep t.rows t.schema m, applyModRows t.rows m⟩

/-- All modifications applied to the full DataFrame. -/
def applyModsTable (mods : List Mod) (t : Table) : Table :=
  mods.foldl applyModTable t

/-! ### Pointwise description of patch application -/

/-- The effect of one modification on one row, as a pure row function. -/
def rowStep (m : Mod) (r : Row) : Row :=
  match modKeyVals m with
  | none => r
  | some (f, t) => applyModToRow f t m r

/-- The effect of the whole modification list on one row. -/
def rowSteps (mods : List Mod) (r : Row) : Row :=
  mods.foldl (fun r m => rowStep m r) r

theorem applyModToRow_unmatched (f t : Value) (m : Mod) (r : Row)
    (h : rowMatches f t r = false) : applyModToRow f t m r = r := by
  unfold applyModToRow
  induction m with
  | nil => rfl
  | cons kv m' ih =>
    rw [List.foldl_cons]
    have hstep : modAttrStep f t r kv = r := by
      unfold modAttrStep
      by_cases hk : kv.1 = "from_node_id" ∨ kv.1 = "to_node_id"
      · rw [if_pos hk]
      · rw [if_neg hk, h]; simp
    rw [hstep]
    exact ih

theorem getCol_modAttrStep_key (f t : Value) (r : Row) (kv : String × Value)
    (c : String) (hc : c = "from_node_id" ∨ c = "to_node_id") :
    getCol (modAttrStep f t r kv) c = getCol r c := by
  unfold modAttrStep
  by_cases hk : kv.1 = "from_node_id" ∨ kv.1 = "to_node_id"
  · rw [if_pos hk]
  · rw [if_neg hk]
    by_cases hm : rowMatches f t r
    · rw [if_pos hm]
      apply getCol_setCol_ne
      intro hck
      rcases hc with hc | hc <;> exact hk (by rw [← hck, hc]; simp [hc])
    · rw [if_neg hm]

theorem getCol_applyModToRow_key (f t : Value) (m : Mod) (r : Row)
    (c : String) (hc : c = "from_node_id" ∨ c = "to_node_id") :
    getCol (applyModToRow f t m r) c = getCol r c := by
  unfold applyModToRow
  induction m generalizing r with
  | nil => rfl
  | cons kv m' ih =>
    rw [List.foldl_cons, ih (modAttrStep f t r kv),
      getCol_modAttrStep_key f t r kv c hc]

theorem rowMatches_modAttrStep (f t : Value) (r : Row) (kv : String × Value) :
    rowMatches f t (modAttrStep f t r kv) = rowMatches f t r := by
  unfold rowMatches
  rw [getCol_modAttrStep_key f t r kv _ (Or.inl rfl),
    getCol_modAttrStep_key f t r kv _ (Or.inr rfl)]

theorem rowMatches_applyModToRow (f t : Value) (m : Mod) (r : Row) :
    rowMatches f t (applyModToRow f t m r) = rowMatches f t r := by
  unfold rowMatches
  rw [getCol_applyModToRow_key f t m r _ (Or.inl rfl),
    getCol_applyModToRow_key f t m r _ (Or.inr rfl)]

/-- The column-wise attribute loop of the script equals the row-wise loop:
each step is a `map` over the rows, and the per-row update of one row does
not look at the other rows. -/
theorem attrLoop_eq_map (f t : Value) (m : Mod) (rows : List Row) :
    m.foldl
      (fun rs kv =>
        if kv.1 = "from_node_id" ∨ kv.1 = "to_node_id" then rs
        else rs.map (fun r => if rowMatches f t r then setCol r kv.1 kv.2 else r))
      rows
    = rows.map (applyModToRow f t m) := by
  induction m generalizing rows with
  | nil =>
    have h0 : applyModToRow f t [] = id := rfl
    rw [List.foldl_nil, h0, List.map_id]
  | cons kv m' ih =>
    rw [List.foldl_cons]
    by_cases hk : kv.1 = "from_node_id" ∨ kv.1 = "to_node_id"
    · rw [if_pos hk, ih rows]
      apply List.map_congr_left
      intro r _
      unfold applyModToRow
      rw [List.foldl_cons]
      have : modAttrStep f t r kv = r := by unfold modAttrStep; rw [if_pos hk]
      rw [this]
    · rw [if_neg hk, ih, List.map_map]
      apply List.map_congr_left
      intro r _
      unfold applyModToRow
      rw [List.foldl_cons]
      have : modAttrStep f t r kv =
          if rowMatches f t r then setCol r kv.1 kv.2 else r := by
        unfold modAttrStep; rw [if_neg hk]
      simp only [Function.comp]
      rw [this]

/-- One modification acts pointwise on the rows: the `mask.sum() == 0` skip
changes nothing, because when no row matches, the per-row function is the
identity on every row of the list. -/
theorem applyModRows_eq_map (rows : List Row) (m : Mod) :
    applyModRows rows m = rows.map (rowStep m) := by
  unfold applyModRows rowStep
  cases hkv : modKeyVals m with
  | none => simp
  | some ft =>
    obtain ⟨f, t⟩ := ft
    dsimp only
    by_cases hany : rows.any (rowMatches f t)
    · rw [if_pos hany]
      exact attrLoop_eq_map f t m rows
    · rw [if_neg hany]
      have : ∀ r ∈ rows, applyModToRow f t m r = r := by
        intro r hr
        apply applyModToRow_unmatched
        by_contra hm
        apply hany
        simp only [List.any_eq_true]
        exact ⟨r, hr, by revert hm; cases rowMatches f t r <;> simp⟩
      conv_lhs => rw [← List.map_id rows]
      apply List.map_congr_left
      intro r hr
      exact (this r hr).symm

/-- The whole modification loop acts pointwise on the rows. -/
theorem applyMods_eq_map (mods : List Mod) (rows : List Row) :
    applyMods mods rows = rows.map (rowSteps mods) := by
  induction mods generalizing rows with
  | nil =>
    have h0 : rowSteps [] = id := rfl
    unfold applyMods
    rw [List.foldl_nil, h0, List.map_id]
  | cons m ms ih =>
    unfold applyMods
    rw [List.foldl_cons, applyModRows_eq_map]
    have := ih (rows.map (rowStep m))
    unfold applyMods at this
    rw [this, List.map_map]
    apply List.map_congr_left
    intro r _
    simp only [Function.comp]
    unfold rowSteps
    rw [List.foldl_cons]

theorem applyModsTable_rows (mods : List Mod) (t : Table) :
    (applyModsTable mods t).rows = applyMods mods t.rows := by
  unfold applyModsTable applyMods
  induction mods generalizing t with
  | nil => rfl
  | cons m ms ih =>
    rw [List.foldl_cons, List.foldl_cons]
    exact ih (applyModTable t m)

/-! ### Which value a patched attribute ends up with -/

/-- Fold that keeps the last `some` produced by `g` over a list. -/
def olast {β : Type} (g : β → Option Value) (l : List β) : Option Value :=
  l.foldl (fun acc b => match g b with | some v => some v | none => acc) none

theorem olast_foldl_init {β : Type} (g : β → Option Value) (l : List β)
    (acc : Option Value) :
    l.foldl (fun acc b => match g b with | some v => some v | none => acc) acc
      = (olast g l).elim acc some := by
  induction l generalizing acc with
  | nil => simp [olast]
  | cons b l' ih =>
    unfold olast
    rw [List.foldl_cons, List.foldl_cons, ih, ih]
    cases hg : g b with
    | some v => cases h' : olast g l' <;> simp [olast, h'] at *
    | none => cases h' : olast g l' <;> simp [olast, h'] at *

theorem olast_cons {β : Type} (g : β → Option Value) (b : β) (l : List β) :
    olast g (b :: l) = (olast g l).elim (g b) some := by
  unfold olast
  rw [List.foldl_cons]
  cases hg : g b with
  | some v => exact olast_foldl_init g l (some v)
  | none => exact olast_foldl_init g l none

theorem olast_eq_none {β : Type} (g : β → Option Value) (l : List β)
    (h : ∀ b ∈ l, g b = none) : olast g l = none := by
  induction l with
  | nil => rfl
  | cons b l' ih =>
    rw [olast_cons, ih (fun b hb => h b (List.mem_cons_of_mem _ hb)),
      h b (List.mem_cons_self _ _)]
    rfl

theorem olast_eq_some_exists {β : Type} (g : β → Option Value) (l : List β)
    (v : Value) (h : olast g l = some v) : ∃ b ∈ l, g b = some v := by
  induction l with
  | nil => simp [olast] at h
  | cons b l' ih =>
    rw [olast_cons] at h
    cases h' : olast g l' with
    | some w =>
      rw [h'] at h
      have hw : w = v := by simpa [Option.elim] using h
      obtain ⟨b', hb', hg'⟩ := ih (h'.trans (congrArg some hw))
      exact ⟨b', List.mem_cons_of_mem _ hb', hg'⟩
    | none =>
      rw [h'] at h
      simp only [Option.elim] at h
      exact ⟨b, List.mem_cons_self _ _, h⟩

/-- The last value a single modification dict assigns to attribute `a`
(ignoring the identification keys, which the attribute loop skips). -/
def lastAssign (m : Mod) (a : String) : Option Value :=
  olast
    (fun kv =>
      if kv.1 = "from_node_id" ∨ kv.1 = "to_node_id" then none
      else if kv.1 = a then some kv.2 else none)
    m

/-- The contribution of one modification to attribute `a` of a row whose
identification key is `k`: its last assignment when it matches, else none. -/
def modAssignOne (k : Value × Value) (a : String) (m : Mod) : Option Value :=
  match modKeyVals m with
  | some ft => if ft = k then lastAssign m a else none
  | none => none

/-- The last value the whole modification list assigns to attribute `a` of a
row with identification key `k`. -/
def modsAssign (mods : List Mod) (k : Value × Value) (a : String) :
    Option Value :=
  olast (modAssignOne k a) mods

/-- The identification key of a row. -/
def rowKeyV (r : Row) : Value × Value :=
  (getCol r "from_node_id", getCol r "to_node_id")

theorem rowMatches_iff_key (f t : Value) (r : Row) :
    rowMatches f t r = true ↔ (f, t) = rowKeyV r := by
  unfold rowMatches rowKeyV
  constructor
  · intro h
    simp only [Bool.and_eq_true, decide_eq_true_eq] at h
    rw [h.1, h.2]
  · intro h
    injection h with h1 h2
    simp [h1, h2]

/-- What the attribute loop of a matching modification does to attribute `a`
of a row: its last assignment when there is one, otherwise nothing. -/
theorem getCol_applyModToRow (f t : Value) (m : Mod) (r : Row) (a : String)
    (hm : rowMatches f t r = true) :
    getCol (applyModToRow f t m r) a = (lastAssign m a).getD (getCol r a) := by
  induction m generalizing r with
  | nil => simp [applyModToRow, lastAssign, olast]
  | cons kv m' ih =>
    have hstep : rowMatches f t (modAttrStep f t r kv) = true := by
      rw [rowMatches_modAttrStep]; exact hm
    have hla : lastAssign (kv :: m') a
        = (lastAssign m' a).elim
            (if kv.1 = "from_node_id" ∨ kv.1 = "to_node_id" then none
             else if kv.1 = a then some kv.2 else none) some := by
      unfold lastAssign
      exact olast_cons _ kv m'
    unfold applyModToRow
    rw [List.foldl_cons]
    have := ih (modAttrStep f t r kv) hstep
    unfold applyModToRow at this
    rw [this, hla]
    cases h' : lastAssign m' a with
    | some w => simp [Option.elim]
    | none =>
      simp only [Option.elim, Option.getD_none]
      unfold modAttrStep
      by_cases hk : kv.1 = "from_node_id" ∨ kv.1 = "to_node_id"
      · rw [if_pos hk, if_pos hk]
        rfl
      · rw [if_neg hk, if_neg hk, if_pos hm]
        by_cases hka : kv.1 = a
        · rw [if_pos hka, hka, Option.getD_some, getCol_setCol_self]
        · rw [if_neg hka, Option.getD_none]
          exact getCol_setCol_ne r kv.1 a kv.2 (fun hh => hka hh.symm)

/-- Identification keys survive the whole modification list at one row. -/
theorem getCol_rowSteps_key (mods : List Mod) (r : Row) (c : String)
    (hc : c = "from_node_id" ∨ c = "to_node_id") :
    getCol (rowSteps mods r) c = getCol r c := by
  induction mods generalizing r with
  | nil => rfl
  | cons m ms ih =>
    unfold rowSteps
    rw [List.foldl_cons]
    have step : getCol (rowStep m r) c = getCol r c := by
      unfold rowStep
      cases modKeyVals m with
      | none => rfl
      | some ft => exact getCol_applyModToRow_key ft.1 ft.2 m r c hc
    have := ih (rowStep m r)
    unfold rowSteps at this
    rw [this, step]

theorem rowKeyV_rowStep (m : Mod) (r : Row) : rowKeyV (rowStep m r) = rowKeyV r := by
  unfold rowKeyV
  have h1 : getCol (rowStep m r) "from_node_id" = getCol r "from_node_id" := by
    unfold rowStep
    cases modKeyVals m with
    | none => rfl
    | some ft => exact getCol_applyModToRow_key ft.1 ft.2 m r _ (Or.inl rfl)
  have h2 : getCol (rowStep m r) "to_node_id" = getCol r "to_node_id" := by
    unfold rowStep
    cases modKeyVals m with
    | none => rfl
    | some ft => exact getCol_applyModToRow_key ft.1 ft.2 m r _ (Or.inr rfl)
  rw [h1, h2]

/-- The central description of patch application at one row: after the whole
modification loop, attribute `a` holds the last value assigned to it by a
matching modification, or its original value when none assigns it. -/
theorem getCol_rowSteps (mods : List Mod) (r : Row) (a : String) :
    getCol (rowSteps mods r) a
      = (modsAssign mods (rowKeyV r) a).getD (getCol r a) := by
  induction mods generalizing r with
  | nil => simp [rowSteps, modsAssign, olast]
  | cons m ms ih =>
    unfold rowSteps
    rw [List.foldl_cons]
    have hih := ih (rowStep m r)
    unfold rowSteps at hih
    rw [hih, rowKeyV_rowStep]
    have hcons : modsAssign (m :: ms) (rowKeyV r) a
        = (modsAssign ms (rowKeyV r) a).elim (modAssignOne (rowKeyV r) a m) some := by
      unfold modsAssign
      exact olast_cons _ m ms
    rw [hcons]
    cases h' : modsAssign ms (rowKeyV r) a with
    | some w => simp [Option.elim]
    | none =>
      simp only [Option.elim, Option.getD_none]
      unfold modAssignOne rowStep
      cases hkv : modKeyVals m with
      | none => rfl
      | some ft =>
        obtain ⟨f, t⟩ := ft
        dsimp only
        by_cases hft : (f, t) = rowKeyV r
        · rw [if_pos hft]
          have hm : rowMatches f t r = true := (rowMatches_iff_key f t r).mpr hft
          exact getCol_applyModToRow f t m r a hm
        · rw [if_neg hft]
          have hm : rowMatches f t r = false := by
            by_contra hmm
            have : rowMatches f t r = true := by
              revert hmm; cases rowMatches f t r <;> simp
            exact hft ((rowMatches_iff_key f t r).mp this)
          rw [applyModToRow_unmatched f t m r hm, Option.getD_none]

/-! ### Sorting and renumbering

`links_df.sort_values(by=['from_node_id', 'to_node_id'])` with more than one
sort key is numpy's lexsort, a stable sort; it is embedded as a stable
insertion sort on the lexicographic key.  `reset_index(drop=True)` followed
by `sorted_links_df['link_id'] = range(1, len+1)` is `renumberFrom 1`. -/

/-- The sort key of a row. -/
def rowKey (r : Row) : Int × Int :=
  ((getCol r "from_node_id").toInt, (getCol r "to_node_id").toInt)

/-- Lexicographic comparison of sort keys. -/
def keyLeB (x y : Int × Int) : Bool :=
  decide (x.1 < y.1) || (decide (x.1 = y.1) && decide (x.2 ≤ y.2))

/-- Stable insertion: `r` goes in front of the first element whose key is
not smaller, hence after earlier elements with a strictly smaller key and
before (input-)later elements with an equal key. -/
def insertRow (r : Row) : List Row → List Row
  | [] => [r]
  | x :: xs =>
    if keyLeB (rowKey r) (rowKey x) then r :: x :: xs else x :: insertRow r xs

/-- Stable sort of the rows by (from_node_id, to_node_id). -/
def sortRows : List Row → List Row
  | [] => []
  | r :: rs => insertRow r (sortRows rs)

/-- `range(1, len+1)` written into `link_id`, positionally. -/
def renumberFrom (n : Nat) : List Row → List Row
  | [] => []
  | r :: rs => setCol r "link_id" (Value.num (n : Int)) :: renumberFrom (n + 1) rs

theorem keyLeB_refl (x : Int × Int) : keyLeB x x = true := by
  simp [keyLeB]

theorem keyLeB_total (x y : Int × Int) :
    keyLeB x y = true ∨ keyLeB y x = true := by
  unfold keyLeB
  rcases lt_trichotomy x.1 y.1 with h | h | h
  · left; simp [h]
  · rcases le_total x.2 y.2 with h2 | h2
    · left; simp [h, h2]
    · right; simp [h.symm, h2]
  · right; simp [h]

theorem keyLeB_trans (x y z : Int × Int) (h1 : keyLeB x y = true)
    (h2 : keyLeB y z = true) : keyLeB x z = true := by
  unfold keyLeB at *
  simp only [Bool.or_eq_true, Bool.and_eq_true, decide_eq_true_eq] at *
  rcases h1 with h1 | ⟨h1a, h1b⟩
  · rcases h2 with h2 | ⟨h2a, h2b⟩
    · exact Or.inl (h1.trans h2)
    · exact Or.inl (h2a ▸ h1)
  · rcases h2 with h2 | ⟨h2a, h2b⟩
    · exact Or.inl (h1a ▸ h2)
    · exact Or.inr ⟨h1a.trans h2a, h1b.trans h2b⟩

theorem mem_insertRow (a r : Row) (l : List Row) :
    a ∈ insertRow r l ↔ a = r ∨ a ∈ l := by
  induction l with
  | nil => simp [insertRow]
  | cons x xs ih =>
    unfold insertRow
    by_cases h : keyLeB (rowKey r) (rowKey x)
    · rw [if_pos h]
      simp only [List.mem_cons]
    · rw [if_neg h]
      simp only [List.mem_cons, ih]
      tauto

theorem insertRow_perm (r : Row) (l : List Row) :
    List.Perm (insertRow r l) (r :: l) := by
  induction l with
  | nil => simp [insertRow]
  | cons x xs ih =>
    unfold insertRow
    by_cases h : keyLeB (rowKey r) (rowKey x)
    · rw [if_pos h]
    · rw [if_neg h]
      exact List.Perm.trans (List.Perm.cons x ih) (List.Perm.swap r x xs)

theorem sortRows_perm (l : List Row) : List.Perm (sortRows l) l := by
  induction l with
  | nil => simp [sortRows]
  | cons r rs ih =>
    unfold sortRows
    exact List.Perm.trans (insertRow_perm r (sortRows rs)) (List.Perm.cons r ih)

theorem sortRows_length (l : List Row) : (sortRows l).length = l.length :=
  (sortRows_perm l).length_eq

theorem pairwise_insertRow (r : Row) (l : List Row)
    (h : l.Pairwise (fun a b => keyLeB (rowKey a) (rowKey b) = true)) :
    (insertRow r l).Pairwise (fun a b => keyLeB (rowKey a) (rowKey b) = true) := by
  induction l with
  | nil => simp [insertRow]
  | cons x xs ih =>
    unfold insertRow
    rcases List.pairwise_cons.mp h with ⟨hx, hxs⟩
    by_cases hle : keyLeB (rowKey r) (rowKey x)
    · rw [if_pos hle]
      refine List.pairwise_cons.mpr ⟨?_, h⟩
      intro b hb
      rcases List.mem_cons.mp hb with hb | hb
      · rw [hb]; exact hle
      · exact keyLeB_trans _ _ _ hle (hx b hb)
    · rw [if_neg hle]
      refine List.pairwise_cons.mpr ⟨?_, ih hxs⟩
      intro b hb
      rcases (mem_insertRow b r xs).mp hb with hb | hb
      · rw [hb]
        rcases keyLeB_total (rowKey r) (rowKey x) with hh | hh
        · exact absurd hh hle
        · exact hh
      · exact hx b hb

theorem sortRows_sorted (l : List Row) :
    (sortRows l).Pairwise (fun a b => keyLeB (rowKey a) (rowKey b) = true) := by
  induction l with
  | nil => simp [sortRows]
  | cons r rs ih => exact pairwise_insertRow r (sortRows rs) ih

/-! Stability: for every fixed key, filtering the sorted list by that key
gives the same sequence as filtering the input, i.e. equal-key rows keep
their relative input order. -/

theorem filter_insertRow_eqKey (r : Row) (l : List Row) (k : Int × Int)
    (hr : rowKey r = k) :
    (insertRow r l).filter (fun x => decide (rowKey x = k))
      = r :: l.filter (fun x => decide (rowKey x = k)) := by
  induction l with
  | nil => simp [insertRow, hr]
  | cons x xs ih =>
    unfold insertRow
    by_cases hle : keyLeB (rowKey r) (rowKey x)
    · rw [if_pos hle]
      simp [List.filter_cons, hr]
    · rw [if_neg hle]
      have hx : ¬ rowKey x = k := by
        intro hxk
        apply hle
        rw [hr, hxk]
        exact keyLeB_refl k
      rw [List.filter_cons, if_neg (by simp [hx]), ih, List.filter_cons,
        if_neg (by simp [hx])]

theorem filter_insertRow_neKey (r : Row) (l : List Row) (k : Int × Int)
    (hr : ¬ rowKey r = k) :
    (insertRow r l).filter (fun x => decide (rowKey x = k))
      = l.filter (fun x => decide (rowKey x = k)) := by
  induction l with
  | nil => simp [insertRow, hr]
  | cons x xs ih =>
    unfold insertRow
    by_cases hle : keyLeB (rowKey r) (rowKey x)
    · rw [if_pos hle]
      rw [List.filter_cons, if_neg (by simp [hr])]
    · rw [if_neg hle]
      rw [List.filter_cons, List.filter_cons]
      by_cases hx : rowKey x = k
      · rw [if_pos (by simp [hx]), if_pos (by simp [hx]), ih]
      · rw [if_neg (by simp [hx]), if_neg (by simp [hx]), ih]

/-- Stability of the sort. -/
theorem sortRows_stable (l : List Row) (k : Int × Int) :
    (sortRows l).filter (fun x => decide (rowKey x = k))
      = l.filter (fun x => decide (rowKey x = k)) := by
  induction l with
  | nil => rfl
  | cons r rs ih =>
    unfold sortRows
    by_cases hr : rowKey r = k
    · rw [filter_insertRow_eqKey r (sortRows rs) k hr, ih, List.filter_cons,
        if_pos (by simp [hr])]
    · rw [filter_insertRow_neKey r (sortRows rs) k hr, ih, List.filter_cons,
        if_neg (by simp [hr])]

theorem renumberFrom_length (n : Nat) (l : List Row) :
    (renumberFrom n l).length = l.length := by
  induction l generalizing n with
  | nil => rfl
  | cons r rs ih => simp [renumberFrom, ih]

theorem renumberFrom_linkIds (n : Nat) (l : List Row) :
    (renumberFrom n l).map (fun r => getCol r "link_id")
      = (List.range l.length).map (fun i => Value.num ((n + i : Nat) : Int)) := by
  induction l generalizing n with
  | nil => rfl
  | cons r rs ih =>
    unfold renumberFrom
    rw [List.map_cons, getCol_setCol_self, ih (n + 1), List.length_cons,
      List.range_succ_eq_map, List.map_cons, List.map_map]
    have h2 : ∀ i ∈ List.range rs.length,
        ((fun i => Value.num ((n + i : Nat) : Int)) ∘ Nat.succ) i
          = Value.num ((n + 1 + i : Nat) : Int) := by
      intro i _
      simp only [Function.comp]
      congr 1
      omega
    rw [List.map_congr_left h2]
    simp

theorem getCol_renumberFrom_ne (n : Nat) (l : List Row) (i : Nat) (a : String)
    (ha : a ≠ "link_id") (hi : i < l.length) :
    getCol ((renumberFrom n l).get ⟨i, by rw [renumberFrom_length]; exact hi⟩) a
      = getCol (l.get ⟨i, hi⟩) a := by
  induction l generalizing n i with
  | nil => cases hi
  | cons r rs ih =>
    cases i with
    | zero =>
      show getCol (setCol r "link_id" (Value.num (n : Int))) a = getCol r a
      exact getCol_setCol_ne r "link_id" a _ ha
    | succ j =>
      have hj : j < rs.length := Nat.lt_of_succ_lt_succ hi
      exact ih (n + 1) j hj

/-! ### The Link Editor end to end -/

/-- The in-memory transformation of `sort_and_rewrite_GMNS_links` once the
file is read and the key columns are known to exist: apply the modification
loop, sort by (from_node_id, to_node_id), `reset_index`, and assign
`link_id = range(1, len+1)` (which also adds the column to the schema when
absent). -/
def transformTable (mods : List Mod) (t : Table) : Table :=
  ⟨if "link_id" ∈ (applyModsTable mods t).schema then (applyModsTable mods t).schema
   else (applyModsTable mods t).schema ++ ["link_id"],
   renumberFrom 1 (sortRows (applyModsTable mods t).rows)⟩

/-- Observable outcome of one `sort_and_rewrite_GMNS_links` call.  The
Python function prints a diagnostic and returns `None` on every path, so
callers can not distinguish these cases; the constructor records which
diagnostic was printed. -/
inductive EditOutcome where
  | ok : EditOutcome
  | fileNotFound : EditOutcome
  | missingKeyColumns : EditOutcome
deriving DecidableEq, Repr

/-- `sort_and_rewrite_GMNS_links` of `change_link_info.py` (one `file_path`
argument): read the file (a missing file is caught and only reported), check
the identification columns (their absence is only reported, nothing is
written), otherwise transform and write back to the same path. -/
def sort_and_rewrite_GMNS_links_file (mods : List Mod) (file_path : String)
    (fs : FS) : FS × EditOutcome :=
  match fsRead fs file_path with
  | none => (fs, EditOutcome.fileNotFound)
  | some df =>
    if "from_node_id" ∈ df.schema ∧ "to_node_id" ∈ df.schema then
      (fsWrite fs file_path (transformTable mods df), EditOutcome.ok)
    else (fs, EditOutcome.missingKeyColumns)

/-- `sort_and_rewrite_GMNS_links` of `DTA_sensitivity_analysis.py`: same
body, with the path assembled by `os.path.join(modified_folder,
network_file)`. -/
def sort_and_rewrite_GMNS_links (mods : List Mod) (network_file : String)
    (modified_folder : String) (fs : FS) : FS × EditOutcome :=
  sort_and_rewrite_GMNS_links_file mods
    (modified_folder ++ "/" ++ network_file) fs

/-! ### The Performance Comparator -/

/-- Column renaming the merge applies to one input side: key columns keep
their name, a column also present in the other input gets the suffix, a
column private to this side keeps its name. -/
def suffixCol (keys other : List String) (sfx : String) (c : String) : String :=
  if c ∈ keys then c else if c ∈ other then c ++ sfx else c

/-- One row of `pd.merge(baseline_df, modified_df, on=key_columns,
suffixes=('_before', '_after'))`: the baseline columns (suffixed where
shared), then the modified side's non-key columns (suffixed where shared). -/
def mergeRow (keys bs ms : List String) (rb rm : Row) : Row :=
  bs.map (fun c => (suffixCol keys ms "_before" c, getCol rb c))
    ++ (ms.filter (fun c => decide (¬ c ∈ keys))).map
        (fun c => (suffixCol keys bs "_after" c, getCol rm c))

/-- Whether two rows agree on every key column. -/
def keysMatch (keys : List String) (rb rm : Row) : Bool :=
  keys.all (fun k => decide (getCol rb k = getCol rm k))

/-- `pd.merge(..., on=key_columns, suffixes=('_before', '_after'))` with the
default inner join: every baseline row is paired with every modified row
that agrees on the keys, in left-major order. -/
def mergeTables (keys : List String) (bt mt : Table) : Table :=
  ⟨bt.schema.map (suffixCol keys mt.schema "_before")
     ++ (mt.schema.filter (fun c => decide (¬ c ∈ keys))).map
         (suffixCol keys bt.schema "_after"),
   bt.rows.flatMap (fun rb =>
     (mt.rows.filter (fun rm => keysMatch keys rb rm)).map
       (fun rm => mergeRow keys bt.schema mt.schema rb rm))⟩

/-- `merged_df[c] = f(row)` column assignment: adds `c` to the schema when
new and writes the value on every row. -/
def addCol (t : Table) (c : String) (f : Row → Value) : Table :=
  ⟨if c ∈ t.schema then t.schema else t.schema ++ [c],
   t.rows.map (fun r => setCol r c (f r))⟩

/-- Errors pandas raises in the comparators: a missing input file
(`FileNotFoundError` from `pd.read_csv`) or a missing column
(`KeyError` from `pd.merge` or column selection). -/
inductive CmpErr where
  | io : CmpErr
  | keyErr : CmpErr
deriving DecidableEq, Repr

/-- The merged link table after the conditional `travel_time_diff`
computation of `compare_link_performance`. -/
def linkTTDiffed (keys : List String) (bdf mdf : Table) : Table :=
  if "travel_time_before" ∈ (mergeTables keys bdf mdf).schema
      ∧ "travel_time_after" ∈ (mergeTables keys bdf mdf).schema
  then addCol (mergeTables keys bdf mdf) "travel_time_diff"
    (fun r => vsub (getCol r "travel_time_after") (getCol r "travel_time_before"))
  else mergeTables keys bdf mdf

/-- The merged link table after the two conditional diff computations of
`compare_link_performance`. -/
def linkDiffed (keys : List String) (bdf mdf : Table) : Table :=
  if "volume_before" ∈ (linkTTDiffed keys bdf mdf).schema
      ∧ "volume_after" ∈ (linkTTDiffed keys bdf mdf).schema then
    addCol (linkTTDiffed keys bdf mdf) "volume_diff"
      (fun r => vsub (getCol r "volume_after") (getCol r "volume_before"))
  else linkTTDiffed keys bdf mdf

/-- `merged_df[merged_df['travel_time_diff'].abs() >= threshold]`. -/
def linkSig (threshold : Int) (t : Table) : Table :=
  ⟨t.schema,
   t.rows.filter (fun r =>
     decide (threshold ≤ intAbs (getCol r "travel_time_diff").toInt))⟩

/-- The columns the significant-changes report of
`compare_link_performance` selects. -/
def linkReportCols (keys : List String) : List String :=
  keys ++ ["travel_time_before", "travel_time_after", "travel_time_diff",
    "volume_before", "volume_after", "volume_diff"]

/-- Result of `compare_link_performance`: the full merged table it returns,
the significant subset when the filter ran, and whether the
missing-travel-time warning was printed. -/
structure LinkCmpOut where
  merged : Table
  significant : Option Table
  warnedMissingTT : Bool
deriving DecidableEq, Repr

/-- `compare_link_performance(baseline_file, modified_file, key_columns,
threshold)`.  Reads both files; merges on the key columns (`pd.merge`
raises a KeyError when a key column is absent); computes
`travel_time_diff` when both suffixed columns exist, printing a warning
otherwise; computes `volume_diff` when both suffixed columns exist (no
warning otherwise); when `travel_time_diff` exists, filters the
significant subset and prints a column selection that raises a KeyError
when any selected column (in particular the volume ones) is absent;
returns the full merged table. -/
def compare_link_performance (fs : FS) (baseline_file modified_file : String)
    (key_columns : List String) (threshold : Int) : Except CmpErr LinkCmpOut :=
  match fsRead fs baseline_file, fsRead fs modified_file with
  | some bdf, some mdf =>
    if key_columns.all (fun k => decide (k ∈ bdf.schema) && decide (k ∈ mdf.schema))
    then
      if "travel_time_diff" ∈ (linkDiffed key_columns bdf mdf).schema then
        if (linkReportCols key_columns).all
            (fun c => decide (c ∈ (linkDiffed key_columns bdf mdf).schema)) then
          Except.ok ⟨linkDiffed key_columns bdf mdf,
            some (linkSig threshold (linkDiffed key_columns bdf mdf)),
            ! decide ("travel_time_before" ∈ (mergeTables key_columns bdf mdf).schema
              ∧ "travel_time_after" ∈ (mergeTables key_columns bdf mdf).schema)⟩
        else Except.error CmpErr.keyErr
      else Except.ok ⟨linkDiffed key_columns bdf mdf, none,
        ! decide ("travel_time_before" ∈ (mergeTables key_columns bdf mdf).schema
          ∧ "travel_time_after" ∈ (mergeTables key_columns bdf mdf).schema)⟩
    else Except.error CmpErr.keyErr
  | _, _ => Except.error CmpErr.io

/-! ### OD-level comparator (`detect_affected_OD_pairs`) -/

/-- The fixed key columns of the OD merge. -/
def odKeys : List String := ["mode", "o_zone_id", "d_zone_id"]

/-- The merged OD table with the three diff columns
(`free_flow_diff`, `congestion_diff`, `volume_diff`) computed in the order
of the script. -/
def odDiffed (bdf mdf : Table) : Table :=
  addCol
    (addCol
      (addCol (mergeTables odKeys bdf mdf) "free_flow_diff"
        (fun r => vsub (getCol r "total_free_flow_travel_time_after")
          (getCol r "total_free_flow_travel_time_before")))
      "congestion_diff"
      (fun r => vsub (getCol r "total_congestion_travel_time_after")
        (getCol r "total_congestion_travel_time_before")))
    "volume_diff"
    (fun r => vsub (getCol r "volume_after") (getCol r "volume_before"))

/-- The affected-OD filter: any of the three diffs at least the threshold
in absolute value. -/
def odAffPred (threshold : Int) (r : Row) : Bool :=
  decide (threshold ≤ intAbs (getCol r "free_flow_diff").toInt)
    || decide (threshold ≤ intAbs (getCol r "congestion_diff").toInt)
    || decide (threshold ≤ intAbs (getCol r "volume_diff").toInt)

/-- The column pairs the three diff assignments of
`detect_affected_OD_pairs` read; selecting any of them while absent raises
a KeyError. -/
def odMetricCols : List String :=
  ["total_free_flow_travel_time_after", "total_free_flow_travel_time_before",
   "total_congestion_travel_time_after", "total_congestion_travel_time_before",
   "volume_after", "volume_before"]

/-- `detect_affected_OD_pairs(baseline_file, modified_file, threshold)`.
Reads both files, merges on mode/o_zone_id/d_zone_id, computes the three
diffs unconditionally (a missing metric column raises a KeyError), filters
the affected rows, and returns the affected subset (not the full merged
table). -/
def detect_affected_OD_pairs (fs : FS) (baseline_file modified_file : String)
    (threshold : Int) : Except CmpErr Table :=
  match fsRead fs baseline_file, fsRead fs modified_file with
  | some bdf, some mdf =>
    if odKeys.all (fun k => decide (k ∈ bdf.schema) && decide (k ∈ mdf.schema))
    then
      if odMetricCols.all
          (fun c => decide (c ∈ (mergeTables odKeys bdf mdf).schema)) then
        Except.ok
          ⟨(odDiffed bdf mdf).schema,
           (odDiffed bdf mdf).rows.filter (odAffPred threshold)⟩
      else Except.error CmpErr.keyErr
    else Except.error CmpErr.keyErr
  | _, _ => Except.error CmpErr.io

/-! ### The pipeline orchestrator (`sensitivity_pipeline`) -/

/-- `df[cols]` column projection (the caller checks the columns exist). -/
def selectCols (t : Table) (cols : List String) : Table :=
  ⟨cols, t.rows.map (fun r => cols.map (fun c => (c, getCol r c)))⟩

/-- The columns `sensitivity_pipeline` selects for the link CSV output. -/
def linkOutputCols (key_columns : List String) : List String :=
  key_columns ++ ["travel_time_before", "travel_time_after", "travel_time_diff",
    "volume_before", "volume_after", "volume_diff"]

/-- The columns `sensitivity_pipeline` selects for the OD CSV output. -/
def odOutputCols : List String :=
  ["mode", "o_zone_id", "d_zone_id",
   "total_free_flow_travel_time_before", "total_free_flow_travel_time_after",
   "free_flow_diff",
   "total_congestion_travel_time_before", "total_congestion_travel_time_after",
   "congestion_diff",
   "volume_before", "volume_after", "volume_diff"]

/-- The filesystem state after the first three pipeline steps: baseline
simulation, destructive link edit (whose failure the editor swallows), and
modified simulation.  `engine folder fs` is the opaque DTALite run. -/
def pipeFS3 (engine : String → FS → FS) (network_file : String)
    (mods : List Mod) (baseline_folder modified_folder : String) (fs : FS) : FS :=
  engine modified_folder
    (sort_and_rewrite_GMNS_links mods network_file modified_folder
      (engine baseline_folder fs)).1

/-- Steps 4–6 of `sensitivity_pipeline` (the two comparisons and the two
CSV writes), run against the filesystem left by steps 1–3. -/
def pipeline_tail (fs3 : FS) (baseline_folder modified_folder : String)
    (key_columns : List String) (threshold : Int) :
    FS × Except CmpErr (Table × Table) :=
  match compare_link_performance fs3
      (baseline_folder ++ "/link_performance.csv")
      (modified_folder ++ "/link_performance.csv") key_columns threshold with
  | Except.error e => (fs3, Except.error e)
  | Except.ok linkOut =>
    match detect_affected_OD_pairs fs3
        (baseline_folder ++ "/od_performance.csv")
        (modified_folder ++ "/od_performance.csv") threshold with
    | Except.error e => (fs3, Except.error e)
    | Except.ok odAff =>
      if (linkOutputCols key_columns).all
          (fun c => decide (c ∈ linkOut.merged.schema)) then
        if odOutputCols.all (fun c => decide (c ∈ odAff.schema)) then
          (fsWrite
            (fsWrite fs3 "link_performance_comparison.csv"
              (selectCols linkOut.merged (linkOutputCols key_columns)))
            "od_performance_comparison.csv" (selectCols odAff odOutputCols),
           Except.ok (linkOut.merged, odAff))
        else (fs3, Except.error CmpErr.keyErr)
      else (fs3, Except.error CmpErr.keyErr)

/-- `sensitivity_pipeline(network_file, modifications, baseline_folder,
modified_folder, key_columns, threshold)`.  Returns the filesystem as of
the failure point (no rollback of completed steps) together with either the
propagated error or the `(link_diff, od_diff)` pair the Python function
returns.  The two output CSVs are written from the column projections of
`link_diff` (the FULL merged link table) and `od_diff` (the affected OD
subset); the projection raises a KeyError when a selected column is
absent. -/
def sensitivity_pipeline (engine : String → FS → FS) (network_file : String)
    (mods : List Mod) (baseline_folder modified_folder : String)
    (key_columns : List String) (threshold : Int) (fs : FS) :
    FS × Except CmpErr (Table × Table) :=
  pipeline_tail
    (pipeFS3 engine network_file mods baseline_folder modified_folder fs)
    baseline_folder modified_folder key_columns threshold

/-! ### Filesystem lemmas -/

theorem fsRead_cons (q : String × Table) (fs : FS) (p : String) :
    fsRead (q :: fs) p = if q.1 = p then some q.2 else fsRead fs p := by
  by_cases h : q.1 = p <;> simp [fsRead, List.find?, h]

theorem fsRead_fsWrite_self (fs : FS) (p : String) (t : Table) :
    fsRead (fsWrite fs p t) p = some t := by
  unfold fsWrite
  by_cases h : fs.any (fun q => decide (q.1 = p))
  · rw [if_pos h]
    induction fs with
    | nil => simp at h
    | cons q qs ih =>
      by_cases hq : q.1 = p
      · simp [fsRead_cons, hq]
      · simp only [List.any_cons, Bool.or_eq_true, decide_eq_true_eq] at h
        rcases h with h | h
        · exact absurd h hq
        · simp only [List.map_cons, if_neg hq, fsRead_cons, hq, if_neg,
            not_false_iff]
          exact ih (by simpa using h)
  · rw [if_neg h]
    induction fs with
    | nil => simp [fsRead_cons]
    | cons q qs ih =>
      simp only [List.any_cons, Bool.or_eq_true, decide_eq_true_eq, not_or] at h
      simp only [List.cons_append, fsRead_cons, h.1, if_neg, not_false_iff]
      exact ih (by simpa using h.2)

theorem fsRead_map_replace_ne (fs : FS) (p q : String) (t : Table)
    (h : q ≠ p) :
    fsRead (fs.map (fun x => if x.1 = p then (p, t) else x)) q = fsRead fs q := by
  induction fs with
  | nil => rfl
  | cons x xs ih =>
    by_cases hx : x.1 = p
    · have h1 : ¬ p = q := fun hh => h hh.symm
      have h2 : ¬ x.1 = q := by rw [hx]; exact h1
      simp only [List.map_cons, if_pos hx, fsRead_cons, h1, if_neg,
        not_false_iff, h2]
      exact ih
    · simp only [List.map_cons, if_neg hx, fsRead_cons]
      by_cases hx' : x.1 = q
      · simp [hx']
      · simp only [hx', if_neg, not_false_iff]
        exact ih

theorem fsRead_append_single_ne (fs : FS) (p q : String) (t : Table)
    (h : q ≠ p) :
    fsRead (fs ++ [(p, t)]) q = fsRead fs q := by
  induction fs with
  | nil =>
    have h1 : ¬ p = q := fun hh => h hh.symm
    simp [fsRead_cons, h1]
  | cons x xs ih =>
    simp only [List.cons_append, fsRead_cons]
    by_cases hx' : x.1 = q
    · simp [hx']
    · simp only [hx', if_neg, not_false_iff]
      exact ih

theorem fsRead_fsWrite_ne (fs : FS) (p q : String) (t : Table) (h : q ≠ p) :
    fsRead (fsWrite fs p t) q = fsRead fs q := by
  unfold fsWrite
  by_cases hp : fs.any (fun x => decide (x.1 = p))
  · rw [if_pos hp]
    exact fsRead_map_replace_ne fs p q t h
  · rw [if_neg hp]
    exact fsRead_append_single_ne fs p q t h

/-! ### Claim theorems: the Link Editor -/

/-- C3: for every input record set and patch list, the final sort by
(from_node_id asc, to_node_id asc) is stable — for every key, the rows
carrying that key appear in the sorted output in exactly the order the
(patched, position-preserving) input had them. -/
theorem c3_sort_is_stable (mods : List Mod) (rows : List Row) (k : Int × Int) :
    (sortRows (applyMods mods rows)).filter (fun r => decide (rowKey r = k))
      = (applyMods mods rows).filter (fun r => decide (rowKey r = k)) :=
  sortRows_stable (applyMods mods rows) k

theorem keyLeB_iff (x y : Int × Int) :
    keyLeB x y = true ↔ (x.1 < y.1 ∨ (x.1 = y.1 ∧ x.2 ≤ y.2)) := by
  unfold keyLeB
  simp

theorem rowKey_renumberFrom_map (n : Nat) (l : List Row) :
    (renumberFrom n l).map rowKey = l.map rowKey := by
  induction l generalizing n with
  | nil => rfl
  | cons r rs ih =>
    unfold renumberFrom
    rw [List.map_cons, List.map_cons, ih (n + 1)]
    congr 1
    unfold rowKey
    rw [getCol_setCol_ne r "link_id" "from_node_id" _ (by decide),
      getCol_setCol_ne r "link_id" "to_node_id" _ (by decide)]

theorem transformTable_rows (mods : List Mod) (t : Table) :
    (transformTable mods t).rows
      = renumberFrom 1 (sortRows (applyMods mods t.rows)) := by
  unfold transformTable
  rw [applyModsTable_rows]

/-- C8: on every successful Link Editor run the written table is sorted
(non-decreasing from_node_id, then non-decreasing to_node_id), its
link_id column read in order is exactly 1..N (overwriting prior values),
and N is the input record count. -/
theorem c8_sorted_renumbered (mods : List Mod) (path : String) (fs : FS)
    (df : Table) (h1 : fsRead fs path = some df)
    (h2 : (sort_and_rewrite_GMNS_links_file mods path fs).2 = EditOutcome.ok) :
    fsRead (sort_and_rewrite_GMNS_links_file mods path fs).1 path
      = some (transformTable mods df)
    ∧ (transformTable mods df).rows.Pairwise (fun a b =>
        (rowKey a).1 < (rowKey b).1
        ∨ ((rowKey a).1 = (rowKey b).1 ∧ (rowKey a).2 ≤ (rowKey b).2))
    ∧ (transformTable mods df).rows.map (fun r => getCol r "link_id")
        = (List.range (transformTable mods df).rows.length).map
            (fun i => Value.num ((1 + i : Nat) : Int))
    ∧ (transformTable mods df).rows.length = df.rows.length := by
  have hbranch : "from_node_id" ∈ df.schema ∧ "to_node_id" ∈ df.schema := by
    by_contra hcols
    unfold sort_and_rewrite_GMNS_links_file at h2
    rw [h1] at h2
    simp only [if_neg hcols] at h2
    cases h2
  have hres : sort_and_rewrite_GMNS_links_file mods path fs
      = (fsWrite fs path (transformTable mods df), EditOutcome.ok) := by
    unfold sort_and_rewrite_GMNS_links_file
    rw [h1]
    simp only [if_pos hbranch]
  refine ⟨?_, ?_, ?_, ?_⟩
  · rw [hres]
    exact fsRead_fsWrite_self fs path (transformTable mods df)
  · rw [transformTable_rows]
    have hsorted := sortRows_sorted (applyMods mods df.rows)
    have h3 : ((sortRows (applyMods mods df.rows)).map rowKey).Pairwise
        (fun x y => keyLeB x y = true) := List.pairwise_map.mpr hsorted
    have h4 : ((renumberFrom 1 (sortRows (applyMods mods df.rows))).map
        rowKey).Pairwise (fun x y => keyLeB x y = true) := by
      rw [rowKey_renumberFrom_map]
      exact h3
    have h5 := List.pairwise_map.mp h4
    exact h5.imp (fun h => (keyLeB_iff _ _).mp h)
  · rw [transformTable_rows, renumberFrom_linkIds, renumberFrom_length]
  · rw [transformTable_rows, renumberFrom_length, sortRows_length,
      applyMods_eq_map, List.length_map]

/-- Concrete link table for the C8 witness. -/
def c8df : Table :=
  ⟨["link_id", "from_node_id", "to_node_id", "lanes"],
   [[("link_id", Value.num 7), ("from_node_id", Value.num 3),
     ("to_node_id", Value.num 2), ("lanes", Value.num 2)],
    [("link_id", Value.num 9), ("from_node_id", Value.num 1),
     ("to_node_id", Value.num 4), ("lanes", Value.num 2)]]⟩

def c8fs : FS := [("After/link.csv", c8df)]

theorem c8_witness :
    fsRead (sort_and_rewrite_GMNS_links_file [] "After/link.csv" c8fs).1
        "After/link.csv" = some (transformTable [] c8df)
    ∧ (transformTable [] c8df).rows.Pairwise (fun a b =>
        (rowKey a).1 < (rowKey b).1
        ∨ ((rowKey a).1 = (rowKey b).1 ∧ (rowKey a).2 ≤ (rowKey b).2))
    ∧ (transformTable [] c8df).rows.map (fun r => getCol r "link_id")
        = (List.range (transformTable [] c8df).rows.length).map
            (fun i => Value.num ((1 + i : Nat) : Int))
    ∧ (transformTable [] c8df).rows.length = c8df.rows.length :=
  c8_sorted_renumbered [] "After/link.csv" c8fs c8df (by decide) (by decide)

/-! ### Claim lemmas: which modification wins on an attribute -/

theorem olast_eq_none_forall {β : Type} (g : β → Option Value) (l : List β)
    (h : olast g l = none) : ∀ b ∈ l, g b = none := by
  induction l with
  | nil => intro b hb; cases hb
  | cons b l' ih =>
    rw [olast_cons] at h
    cases h' : olast g l' with
    | some w => rw [h'] at h; simp [Option.elim] at h
    | none =>
      rw [h'] at h
      simp only [Option.elim] at h
      intro b' hb'
      rcases List.mem_cons.mp hb' with hb' | hb'
      · rw [hb']; exact h
      · exact ih h' b' hb'

theorem modAssignOne_eq_some (k : Value × Value) (a : String) (m : Mod)
    (v : Value) :
    modAssignOne k a m = some v
      ↔ modKeyVals m = some k ∧ lastAssign m a = some v := by
  unfold modAssignOne
  cases hkv : modKeyVals m with
  | none => simp
  | some ft =>
    dsimp only
    by_cases hft : ft = k
    · rw [if_pos hft, hft]
      simp
    · rw [if_neg hft]
      constructor
      · intro hh; cases hh
      · intro hh
        exact absurd (by injection hh.1) hft

theorem modsAssign_unique (mods : List Mod) (k : Value × Value) (a : String)
    (m : Mod) (hm : m ∈ mods) (v : Value)
    (hkv : modKeyVals m = some k) (hla : lastAssign m a = some v)
    (huniq : ∀ m2 ∈ mods, modKeyVals m2 = some k →
      (lastAssign m2 a).isSome = true → m2 = m) :
    modsAssign mods k a = some v := by
  induction mods with
  | nil => cases hm
  | cons m0 ms ih =>
    have hcons : modsAssign (m0 :: ms) k a
        = (modsAssign ms k a).elim (modAssignOne k a m0) some := by
      unfold modsAssign
      exact olast_cons _ m0 ms
    rw [hcons]
    cases h' : modsAssign ms k a with
    | some w =>
      simp only [Option.elim]
      obtain ⟨m', hm', hg'⟩ := olast_eq_some_exists _ ms w h'
      obtain ⟨hkv', hla'⟩ := (modAssignOne_eq_some k a m' w).mp hg'
      have hmm : m' = m :=
        huniq m' (List.mem_cons_of_mem _ hm') hkv' (by rw [hla']; rfl)
      rw [hmm] at hla'
      rw [hla] at hla'
      injection hla' with hw
      rw [hw]
    | none =>
      simp only [Option.elim]
      by_cases hm0 : m0 = m
      · rw [hm0]
        exact (modAssignOne_eq_some k a m v).mpr ⟨hkv, hla⟩
      · have hmem : m ∈ ms := by
          rcases List.mem_cons.mp hm with hh | hh
          · exact absurd hh.symm hm0
          · exact hh
        have hnone := olast_eq_none_forall _ ms h' m hmem
        have : modAssignOne k a m = some v :=
          (modAssignOne_eq_some k a m v).mpr ⟨hkv, hla⟩
        rw [this] at hnone
        cases hnone

/-- C9: patch application touches exactly the named attributes of exactly
the matching records.  Part 1: the modification loop is positional on the
rows.  Part 2: on a record matching the (unique) patch naming attribute
`a`, that attribute ends with the patch's value.  Part 3: an attribute not
assigned by any matching patch is unchanged on that record (so records
matching no patch keep all values).  Part 4: a patch whose key matches no
record leaves the whole row list unchanged. -/
theorem c9_patch_application (mods : List Mod) (rows : List Row) :
    applyMods mods rows = rows.map (rowSteps mods)
    ∧ (∀ r ∈ rows, ∀ m ∈ mods, ∀ a : String, ∀ v : Value,
        ¬ a = "from_node_id" → ¬ a = "to_node_id" →
        lastAssign m a = some v →
        modKeyVals m = some (rowKeyV r) →
        (∀ m2 ∈ mods, modKeyVals m2 = some (rowKeyV r) →
          (lastAssign m2 a).isSome = true → m2 = m) →
        getCol (rowSteps mods r) a = v)
    ∧ (∀ r ∈ rows, ∀ a : String,
        (∀ m ∈ mods, ¬ (modKeyVals m = some (rowKeyV r)
          ∧ (lastAssign m a).isSome = true)) →
        getCol (rowSteps mods r) a = getCol r a)
    ∧ (∀ m : Mod, ∀ f t : Value, modKeyVals m = some (f, t) →
        (∀ r ∈ rows, rowMatches f t r = false) →
        applyModRows rows m = rows) := by
  refine ⟨applyMods_eq_map mods rows, ?_, ?_, ?_⟩
  · intro r _ m hm a v _ _ hla hkv huniq
    rw [getCol_rowSteps,
      modsAssign_unique mods (rowKeyV r) a m hm v hkv hla huniq]
    rfl
  · intro r _ a hnone
    rw [getCol_rowSteps]
    have : modsAssign mods (rowKeyV r) a = none := by
      apply olast_eq_none
      intro m hm
      unfold modAssignOne
      cases hkv : modKeyVals m with
      | none => rfl
      | some ft =>
        dsimp only
        by_cases hft : ft = (rowKeyV r)
        · rw [if_pos hft]
          cases hla : lastAssign m a with
          | none => rfl
          | some w =>
            exact absurd ⟨by rw [hkv, hft], by rw [hla]; rfl⟩ (hnone m hm)
        · rw [if_neg hft]
    rw [this]
    rfl
  · intro m f t hkv hnomatch
    unfold applyModRows
    rw [hkv]
    dsimp only
    have hfalse : rows.any (rowMatches f t) = false := by
      rw [List.any_eq_false]
      intro r hr
      rw [hnomatch r hr]
      intro hh
      cases hh
    rw [hfalse]
    simp

/-- Concrete data for the C9 witness: one matching record, one other
record, one applied patch and one inert patch. -/
def c9row1 : Row :=
  [("link_id", Value.num 9), ("from_node_id", Value.num 1),
   ("to_node_id", Value.num 4), ("lanes", Value.num 2),
   ("capacity", Value.num 100)]

def c9row2 : Row :=
  [("link_id", Value.num 7), ("from_node_id", Value.num 3),
   ("to_node_id", Value.num 2), ("lanes", Value.num 1)]

def c9rows : List Row := [c9row1, c9row2]

def c9m1 : Mod :=
  [("from_node_id", Value.num 1), ("to_node_id", Value.num 4),
   ("lanes", Value.num 3)]

def c9inert : Mod :=
  [("from_node_id", Value.num 5), ("to_node_id", Value.num 6),
   ("lanes", Value.num 8)]

theorem c9_witness :
    applyMods [c9m1] c9rows = c9rows.map (rowSteps [c9m1])
    ∧ getCol (rowSteps [c9m1] c9row1) "lanes" = Value.num 3
    ∧ getCol (rowSteps [c9m1] c9row1) "capacity" = Value.num 100
    ∧ applyModRows c9rows c9inert = c9rows :=
  ⟨(c9_patch_application [c9m1] c9rows).1,
   (c9_patch_application [c9m1] c9rows).2.1 c9row1 (by decide) c9m1 (by decide)
     "lanes" (Value.num 3) (by decide) (by decide) (by decide) (by decide)
     (by decide),
   (c9_patch_application [c9m1] c9rows).2.2.1 c9row1 (by decide) "capacity"
     (by decide),
   (c9_patch_application [c9m1] c9rows).2.2.2 c9inert (Value.num 5)
     (Value.num 6) (by decide) (by decide)⟩

theorem renumberFrom_map_eraseLink (n : Nat) (l : List Row) :
    (renumberFrom n l).map (fun r => setCol r "link_id" Value.null)
      = l.map (fun r => setCol r "link_id" Value.null) := by
  induction l generalizing n with
  | nil => rfl
  | cons r rs ih =>
    unfold renumberFrom
    rw [List.map_cons, List.map_cons, ih (n + 1), setCol_setCol_self]

/-- C10 (implicit): a successful Link Editor run neither creates nor
deletes records — the output length equals the input length; up to the
reassigned link_id, the output rows are a permutation of the input rows
with their matching patches applied; and a patched row differs from its
input row only at attributes assigned by a patch whose key matches it. -/
theorem c10_no_create_no_delete (mods : List Mod) (t : Table) :
    (transformTable mods t).rows.length = t.rows.length
    ∧ List.Perm
        ((transformTable mods t).rows.map
          (fun r => setCol r "link_id" Value.null))
        (t.rows.map (fun r => setCol (rowSteps mods r) "link_id" Value.null))
    ∧ (∀ r ∈ t.rows, ∀ a : String,
        ¬ getCol (rowSteps mods r) a = getCol r a →
        ∃ m ∈ mods, modKeyVals m = some (rowKeyV r)
          ∧ (lastAssign m a).isSome = true) := by
  refine ⟨?_, ?_, ?_⟩
  · rw [transformTable_rows, renumberFrom_length, sortRows_length,
      applyMods_eq_map, List.length_map]
  · rw [transformTable_rows, renumberFrom_map_eraseLink, applyMods_eq_map]
    have hperm := (sortRows_perm (t.rows.map (rowSteps mods))).map
      (fun r => setCol r "link_id" Value.null)
    rw [List.map_map] at hperm
    simpa [Function.comp] using hperm
  · intro r _ a hne
    rw [getCol_rowSteps] at hne
    cases hma : modsAssign mods (rowKeyV r) a with
    | none =>
      rw [hma] at hne
      exact absurd rfl hne
    | some v =>
      obtain ⟨m, hm, hg⟩ := olast_eq_some_exists _ mods v hma
      obtain ⟨hkv, hla⟩ := (modAssignOne_eq_some _ a m v).mp hg
      exact ⟨m, hm, hkv, by rw [hla]; rfl⟩

/-- Concrete table for the C10 witness (same shape as the C9 data). -/
def c10t : Table :=
  ⟨["link_id", "from_node_id", "to_node_id", "lanes", "capacity"], c9rows⟩

theorem c10_witness :
    (transformTable [c9m1] c10t).rows.length = c10t.rows.length
    ∧ List.Perm
        ((transformTable [c9m1] c10t).rows.map
          (fun r => setCol r "link_id" Value.null))
        (c10t.rows.map
          (fun r => setCol (rowSteps [c9m1] r) "link_id" Value.null))
    ∧ (∃ m ∈ [c9m1], modKeyVals m = some (rowKeyV c9row1)
        ∧ (lastAssign m "lanes").isSome = true) :=
  ⟨(c10_no_create_no_delete [c9m1] c10t).1,
   (c10_no_create_no_delete [c9m1] c10t).2.1,
   (c10_no_create_no_delete [c9m1] c10t).2.2 c9row1 (by decide) "lanes"
     (by decide)⟩

/-! ### Reading merged rows -/

theorem getCol_append (r1 r2 : Row) (c : String) :
    getCol (r1 ++ r2) c = if hasCol r1 c then getCol r1 c else getCol r2 c := by
  induction r1 with
  | nil => simp [hasCol]
  | cons p ps ih =>
    rw [List.cons_append, getCol_cons, hasCol_cons, getCol_cons]
    by_cases hp : p.1 = c
    · simp [hp]
    · simp only [hp, if_neg, not_false_iff, decide_False, Bool.false_or]
      exact ih

theorem hasCol_map_pairs (cols : List String) (nm : String → String)
    (vf : String → Value) (target : String) :
    hasCol (cols.map (fun c => (nm c, vf c))) target
      = cols.any (fun c => decide (nm c = target)) := by
  induction cols with
  | nil => rfl
  | cons c cs ih => rw [List.map_cons, hasCol_cons, List.any_cons, ih]

theorem getCol_map_pairs (cols : List String) (nm : String → String)
    (vf : String → Value) (target c0 : String)
    (h0 : c0 ∈ cols) (hnm : nm c0 = target)
    (huniq : ∀ c ∈ cols, nm c = target → vf c = vf c0) :
    getCol (cols.map (fun c => (nm c, vf c))) target = vf c0 := by
  induction cols with
  | nil => cases h0
  | cons c cs ih =>
    rw [List.map_cons, getCol_cons]
    by_cases hc : nm c = target
    · rw [if_pos hc]
      exact huniq c (List.mem_cons_self _ _) hc
    · rw [if_neg hc]
      have h0' : c0 ∈ cs := by
        rcases List.mem_cons.mp h0 with hh | hh
        · rw [← hh] at hc; exact absurd hnm hc
        · exact hh
      exact ih h0' (fun c' hc' h' => huniq c' (List.mem_cons_of_mem _ hc') h')

theorem getCol_mergeRow_key (keys bs ms : List String) (rb rm : Row)
    (k : String) (hk : k ∈ keys) (hkb : k ∈ bs)
    (hcoll : ∀ c ∈ bs, suffixCol keys ms "_before" c = k → c = k) :
    getCol (mergeRow keys bs ms rb rm) k = getCol rb k := by
  unfold mergeRow
  rw [getCol_append]
  have hnm : suffixCol keys ms "_before" k = k := by
    unfold suffixCol
    rw [if_pos hk]
  have hhas : hasCol
      (bs.map (fun c => (suffixCol keys ms "_before" c, getCol rb c))) k
        = true := by
    rw [hasCol_map_pairs, List.any_eq_true]
    exact ⟨k, hkb, by simp [hnm]⟩
  rw [if_pos hhas]
  exact getCol_map_pairs bs _ _ k k hkb hnm
    (fun c hc h' => by rw [hcoll c hc h'])

theorem getCol_mergeRow_before (keys bs ms : List String) (rb rm : Row)
    (c : String) (hcb : c ∈ bs) (hcm : c ∈ ms) (hck : ¬ c ∈ keys)
    (hcoll : ∀ c' ∈ bs,
      suffixCol keys ms "_before" c' = c ++ "_before" → c' = c) :
    getCol (mergeRow keys bs ms rb rm) (c ++ "_before") = getCol rb c := by
  unfold mergeRow
  rw [getCol_append]
  have hnm : suffixCol keys ms "_before" c = c ++ "_before" := by
    unfold suffixCol
    rw [if_neg hck, if_pos hcm]
  have hhas : hasCol
      (bs.map (fun c => (suffixCol keys ms "_before" c, getCol rb c)))
        (c ++ "_before") = true := by
    rw [hasCol_map_pairs, List.any_eq_true]
    exact ⟨c, hcb, by simp [hnm]⟩
  rw [if_pos hhas]
  exact getCol_map_pairs bs _ _ (c ++ "_before") c hcb hnm
    (fun c' hc' h' => by rw [hcoll c' hc' h'])

theorem getCol_mergeRow_after (keys bs ms : List String) (rb rm : Row)
    (c : String) (hcb : c ∈ bs) (hcm : c ∈ ms) (hck : ¬ c ∈ keys)
    (hnotb : ∀ c' ∈ bs, ¬ suffixCol keys ms "_before" c' = c ++ "_after")
    (hcoll : ∀ c' ∈ ms, ¬ c' ∈ keys →
      suffixCol keys bs "_after" c' = c ++ "_after" → c' = c) :
    getCol (mergeRow keys bs ms rb rm) (c ++ "_after") = getCol rm c := by
  unfold mergeRow
  rw [getCol_append]
  have hhas : hasCol
      (bs.map (fun c => (suffixCol keys ms "_before" c, getCol rb c)))
        (c ++ "_after") = false := by
    rw [hasCol_map_pairs, List.any_eq_false]
    intro c' hc'
    simp only [decide_eq_true_eq]
    exact hnotb c' hc'
  rw [hhas]
  simp only [Bool.false_eq_true, if_neg, not_false_iff]
  have hnm : suffixCol keys bs "_after" c = c ++ "_after" := by
    unfold suffixCol
    rw [if_neg hck, if_pos hcb]
  have hcf : c ∈ ms.filter (fun x => decide (¬ x ∈ keys)) := by
    rw [List.mem_filter]
    exact ⟨hcm, by simp [hck]⟩
  exact getCol_map_pairs _ _ _ (c ++ "_after") c hcf hnm
    (fun c' hc' h' => by
      rw [List.mem_filter] at hc'
      have hck' : ¬ c' ∈ keys := by simpa using hc'.2
      rw [hcoll c' hc'.1 hck' h'])

theorem mem_mergeTables (keys : List String) (bt mt : Table) (r : Row) :
    r ∈ (mergeTables keys bt mt).rows
      ↔ ∃ rb ∈ bt.rows, ∃ rm ∈ mt.rows,
          keysMatch keys rb rm = true
          ∧ r = mergeRow keys bt.schema mt.schema rb rm := by
  unfold mergeTables
  simp only [List.mem_flatMap, List.mem_map, List.mem_filter]
  constructor
  · rintro ⟨rb, hrb, rm, ⟨hrm, hmatch⟩, hr⟩
    exact ⟨rb, hrb, rm, hrm, hmatch, hr.symm⟩
  · rintro ⟨rb, hrb, rm, hrm, hmatch, hr⟩
    exact ⟨rb, hrb, rm, ⟨hrm, hmatch⟩, hr.symm⟩

/-- The key-column values of a performance row. -/
def keyTuple (keys : List String) (r : Row) : List Value :=
  keys.map (fun k => getCol r k)

theorem keysMatch_keyTuple (keys : List String) (rb rm : Row)
    (h : keysMatch keys rb rm = true) :
    keyTuple keys rb = keyTuple keys rm := by
  unfold keysMatch at h
  rw [List.all_eq_true] at h
  unfold keyTuple
  apply List.map_congr_left
  intro k hk
  simpa using h k hk

theorem keyTuple_mergeRow (keys bs ms : List String) (rb rm : Row)
    (hkeys : ∀ k ∈ keys,
      k ∈ bs ∧ (∀ c ∈ bs, suffixCol keys ms "_before" c = k → c = k)) :
    keyTuple keys (mergeRow keys bs ms rb rm) = keyTuple keys rb := by
  unfold keyTuple
  apply List.map_congr_left
  intro k hk
  exact getCol_mergeRow_key keys bs ms rb rm k hk (hkeys k hk).1 (hkeys k hk).2

theorem mem_addCol_rows (t : Table) (c : String) (f : Row → Value) (r : Row) :
    r ∈ (addCol t c f).rows ↔ ∃ r0 ∈ t.rows, r = setCol r0 c (f r0) := by
  unfold addCol
  simp only [List.mem_map]
  constructor
  · rintro ⟨r0, hr0, hr⟩; exact ⟨r0, hr0, hr.symm⟩
  · rintro ⟨r0, hr0, hr⟩; exact ⟨r0, hr0, hr.symm⟩

theorem addCol_schema_mem (t : Table) (c c' : String) (f : Row → Value)
    (h : c' ∈ t.schema) : c' ∈ (addCol t c f).schema := by
  unfold addCol
  by_cases hc : c ∈ t.schema
  · rw [if_pos hc]; exact h
  · rw [if_neg hc]; exact List.mem_append_left _ h

/-- Travel-time diff correctness inside `linkDiffed`. -/
theorem linkDiffed_tt_diff (keys : List String) (bt mt : Table)
    (hTT : "travel_time_before" ∈ (mergeTables keys bt mt).schema
      ∧ "travel_time_after" ∈ (mergeTables keys bt mt).schema) :
    ∀ r ∈ (linkDiffed keys bt mt).rows,
      getCol r "travel_time_diff"
        = vsub (getCol r "travel_time_after") (getCol r "travel_time_before") := by
  intro r hr
  have htt1 : ∀ r1 ∈ (linkTTDiffed keys bt mt).rows,
      getCol r1 "travel_time_diff"
        = vsub (getCol r1 "travel_time_after") (getCol r1 "travel_time_before") := by
    intro r1 hr1
    unfold linkTTDiffed at hr1
    rw [if_pos hTT] at hr1
    obtain ⟨mr, hmr, hr1e⟩ := (mem_addCol_rows _ _ _ r1).mp hr1
    rw [hr1e, getCol_setCol_self,
      getCol_setCol_ne _ "travel_time_diff" "travel_time_after" _ (by decide),
      getCol_setCol_ne _ "travel_time_diff" "travel_time_before" _ (by decide)]
  unfold linkDiffed at hr
  by_cases hvol : "volume_before" ∈ (linkTTDiffed keys bt mt).schema
      ∧ "volume_after" ∈ (linkTTDiffed keys bt mt).schema
  · rw [if_pos hvol] at hr
    obtain ⟨r1, hr1, hre⟩ := (mem_addCol_rows _ _ _ r).mp hr
    rw [hre,
      getCol_setCol_ne _ "volume_diff" "travel_time_diff" _ (by decide),
      getCol_setCol_ne _ "volume_diff" "travel_time_after" _ (by decide),
      getCol_setCol_ne _ "volume_diff" "travel_time_before" _ (by decide)]
    exact htt1 r1 hr1
  · rw [if_neg hvol] at hr
    exact htt1 r hr

/-- Volume diff correctness inside `linkDiffed`. -/
theorem linkDiffed_vol_diff (keys : List String) (bt mt : Table)
    (hvol : "volume_before" ∈ (mergeTables keys bt mt).schema
      ∧ "volume_after" ∈ (mergeTables keys bt mt).schema) :
    ∀ r ∈ (linkDiffed keys bt mt).rows,
      getCol r "volume_diff"
        = vsub (getCol r "volume_after") (getCol r "volume_before") := by
  intro r hr
  have hvol' : "volume_before" ∈ (linkTTDiffed keys bt mt).schema
      ∧ "volume_after" ∈ (linkTTDiffed keys bt mt).schema := by
    unfold linkTTDiffed
    by_cases hTT : "travel_time_before" ∈ (mergeTables keys bt mt).schema
        ∧ "travel_time_after" ∈ (mergeTables keys bt mt).schema
    · rw [if_pos hTT]
      exact ⟨addCol_schema_mem _ _ _ _ hvol.1, addCol_schema_mem _ _ _ _ hvol.2⟩
    · rw [if_neg hTT]
      exact hvol
  unfold linkDiffed at hr
  rw [if_pos hvol'] at hr
  obtain ⟨r1, hr1, hre⟩ := (mem_addCol_rows _ _ _ r).mp hr
  rw [hre, getCol_setCol_self,
    getCol_setCol_ne _ "volume_diff" "volume_after" _ (by decide),
    getCol_setCol_ne _ "volume_diff" "volume_before" _ (by decide)]

/-- The three diff columns of `odDiffed` all satisfy after − before. -/
theorem odDiffed_diffs (bt mt : Table) :
    ∀ r ∈ (odDiffed bt mt).rows,
      getCol r "free_flow_diff"
        = vsub (getCol r "total_free_flow_travel_time_after")
            (getCol r "total_free_flow_travel_time_before")
      ∧ getCol r "congestion_diff"
        = vsub (getCol r "total_congestion_travel_time_after")
            (getCol r "total_congestion_travel_time_before")
      ∧ getCol r "volume_diff"
        = vsub (getCol r "volume_after") (getCol r "volume_before") := by
  intro r hr
  unfold odDiffed at hr
  obtain ⟨r2, hr2, hre⟩ := (mem_addCol_rows _ _ _ r).mp hr
  obtain ⟨r1, hr1, hr2e⟩ := (mem_addCol_rows _ _ _ r2).mp hr2
  obtain ⟨mr, hmr, hr1e⟩ := (mem_addCol_rows _ _ _ r1).mp hr1
  subst hre hr2e hr1e
  refine ⟨?_, ?_, ?_⟩
  · rw [getCol_setCol_ne _ "volume_diff" "free_flow_diff" _ (by decide),
      getCol_setCol_ne _ "congestion_diff" "free_flow_diff" _ (by decide),
      getCol_setCol_self,
      getCol_setCol_ne _ "volume_diff" "total_free_flow_travel_time_after" _
        (by decide),
      getCol_setCol_ne _ "congestion_diff" "total_free_flow_travel_time_after" _
        (by decide),
      getCol_setCol_ne _ "free_flow_diff" "total_free_flow_travel_time_after" _
        (by decide),
      getCol_setCol_ne _ "volume_diff" "total_free_flow_travel_time_before" _
        (by decide),
      getCol_setCol_ne _ "congestion_diff" "total_free_flow_travel_time_before" _
        (by decide),
      getCol_setCol_ne _ "free_flow_diff" "total_free_flow_travel_time_before" _
        (by decide)]
  · rw [getCol_setCol_ne _ "volume_diff" "congestion_diff" _ (by decide),
      getCol_setCol_self,
      getCol_setCol_ne _ "volume_diff" "total_congestion_travel_time_after" _
        (by decide),
      getCol_setCol_ne _ "congestion_diff" "total_congestion_travel_time_after" _
        (by decide),
      getCol_setCol_ne _ "free_flow_diff" "total_congestion_travel_time_after" _
        (by decide),
      getCol_setCol_ne _ "volume_diff" "total_congestion_travel_time_before" _
        (by decide),
      getCol_setCol_ne _ "congestion_diff" "total_congestion_travel_time_before" _
        (by decide),
      getCol_setCol_ne _ "free_flow_diff" "total_congestion_travel_time_before" _
        (by decide)]
  · rw [getCol_setCol_self,
      getCol_setCol_ne _ "volume_diff" "volume_after" _ (by decide),
      getCol_setCol_ne _ "congestion_diff" "volume_after" _ (by decide),
      getCol_setCol_ne _ "free_flow_diff" "volume_after" _ (by decide),
      getCol_setCol_ne _ "volume_diff" "volume_before" _ (by decide),
      getCol_setCol_ne _ "congestion_diff" "volume_before" _ (by decide),
      getCol_setCol_ne _ "free_flow_diff" "volume_before" _ (by decide)]

/-- C7: the comparison output is the inner equi-join of baseline and
modified on the key columns — a key tuple present in only one input yields
no output row — and for each computed metric `m` the output row carries
`m_before` (the baseline value), `m_after` (the modified value) and
`m_diff = m_after − m_before` (instantiated by travel_time/volume for the
link comparator and by the three OD metrics for the OD comparator). -/
theorem c7_inner_join_diff (keys : List String) (bt mt : Table) :
    (∀ r : Row, r ∈ (mergeTables keys bt mt).rows
      ↔ ∃ rb ∈ bt.rows, ∃ rm ∈ mt.rows,
          keysMatch keys rb rm = true
          ∧ r = mergeRow keys bt.schema mt.schema rb rm)
    ∧ (∀ κ : List Value,
        (∀ k ∈ keys, k ∈ bt.schema
          ∧ (∀ c ∈ bt.schema, suffixCol keys mt.schema "_before" c = k → c = k)) →
        (∀ rm ∈ mt.rows, ¬ keyTuple keys rm = κ) →
        ∀ r ∈ (mergeTables keys bt mt).rows, ¬ keyTuple keys r = κ)
    ∧ (∀ κ : List Value,
        (∀ k ∈ keys, k ∈ bt.schema
          ∧ (∀ c ∈ bt.schema, suffixCol keys mt.schema "_before" c = k → c = k)) →
        (∀ rb ∈ bt.rows, ¬ keyTuple keys rb = κ) →
        ∀ r ∈ (mergeTables keys bt mt).rows, ¬ keyTuple keys r = κ)
    ∧ (∀ c : String, c ∈ bt.schema → c ∈ mt.schema → ¬ c ∈ keys →
        (∀ c' ∈ bt.schema,
          suffixCol keys mt.schema "_before" c' = c ++ "_before" → c' = c) →
        (∀ c' ∈ bt.schema,
          ¬ suffixCol keys mt.schema "_before" c' = c ++ "_after") →
        (∀ c' ∈ mt.schema, ¬ c' ∈ keys →
          suffixCol keys bt.schema "_after" c' = c ++ "_after" → c' = c) →
        ∀ rb ∈ bt.rows, ∀ rm ∈ mt.rows,
          getCol (mergeRow keys bt.schema mt.schema rb rm) (c ++ "_before")
            = getCol rb c
          ∧ getCol (mergeRow keys bt.schema mt.schema rb rm) (c ++ "_after")
            = getCol rm c)
    ∧ (("travel_time_before" ∈ (mergeTables keys bt mt).schema
        ∧ "travel_time_after" ∈ (mergeTables keys bt mt).schema) →
        ∀ r ∈ (linkDiffed keys bt mt).rows,
          getCol r "travel_time_diff"
            = vsub (getCol r "travel_time_after") (getCol r "travel_time_before"))
    ∧ (("volume_before" ∈ (mergeTables keys bt mt).schema
        ∧ "volume_after" ∈ (mergeTables keys bt mt).schema) →
        ∀ r ∈ (linkDiffed keys bt mt).rows,
          getCol r "volume_diff"
            = vsub (getCol r "volume_after") (getCol r "volume_before"))
    ∧ (∀ r ∈ (odDiffed bt mt).rows,
        getCol r "free_flow_diff"
          = vsub (getCol r "total_free_flow_travel_time_after")
              (getCol r "total_free_flow_travel_time_before")
        ∧ getCol r "congestion_diff"
          = vsub (getCol r "total_congestion_travel_time_after")
              (getCol r "total_congestion_travel_time_before")
        ∧ getCol r "volume_diff"
          = vsub (getCol r "volume_after") (getCol r "volume_before")) := by
  refine ⟨mem_mergeTables keys bt mt, ?_, ?_, ?_,
    linkDiffed_tt_diff keys bt mt, linkDiffed_vol_diff keys bt mt,
    odDiffed_diffs bt mt⟩
  · intro κ hkeys habsent r hr hκ
    obtain ⟨rb, hrb, rm, hrm, hmatch, hre⟩ := (mem_mergeTables keys bt mt r).mp hr
    apply habsent rm hrm
    rw [← hκ, hre, keyTuple_mergeRow keys bt.schema mt.schema rb rm hkeys]
    exact (keysMatch_keyTuple keys rb rm hmatch).symm
  · intro κ hkeys habsent r hr hκ
    obtain ⟨rb, hrb, rm, hrm, hmatch, hre⟩ := (mem_mergeTables keys bt mt r).mp hr
    apply habsent rb hrb
    rw [← hκ, hre, keyTuple_mergeRow keys bt.schema mt.schema rb rm hkeys]
  · intro c hcb hcm hck hcoll hnotb hcoll' rb _ rm _
    exact ⟨getCol_mergeRow_before keys bt.schema mt.schema rb rm c hcb hcm hck hcoll,
      getCol_mergeRow_after keys bt.schema mt.schema rb rm c hcb hcm hck hnotb hcoll'⟩

/-- Concrete tables for the C7 witness: key (1,2) present in both inputs,
key (3,4) only in the baseline. -/
def c7bt : Table :=
  ⟨["from_node_id", "to_node_id", "travel_time", "volume"],
   [[("from_node_id", Value.num 1), ("to_node_id", Value.num 2),
     ("travel_time", Value.num 10), ("volume", Value.num 100)],
    [("from_node_id", Value.num 3), ("to_node_id", Value.num 4),
     ("travel_time", Value.num 20), ("volume", Value.num 50)]]⟩

def c7mt : Table :=
  ⟨["from_node_id", "to_node_id", "travel_time", "volume"],
   [[("from_node_id", Value.num 1), ("to_node_id", Value.num 2),
     ("travel_time", Value.num 15), ("volume", Value.num 90)]]⟩

def c7keys : List String := ["from_node_id", "to_node_id"]

theorem c7_witness :
    (∀ r ∈ (mergeTables c7keys c7bt c7mt).rows,
      ¬ keyTuple c7keys r = [Value.num 3, Value.num 4])
    ∧ getCol (mergeRow c7keys c7bt.schema c7mt.schema
        (c7bt.rows.get ⟨0, by decide⟩) (c7mt.rows.get ⟨0, by decide⟩))
        ("travel_time" ++ "_before") = Value.num 10
    ∧ getCol (mergeRow c7keys c7bt.schema c7mt.schema
        (c7bt.rows.get ⟨0, by decide⟩) (c7mt.rows.get ⟨0, by decide⟩))
        ("travel_time" ++ "_after") = Value.num 15
    ∧ (∀ r ∈ (linkDiffed c7keys c7bt c7mt).rows,
        getCol r "travel_time_diff"
          = vsub (getCol r "travel_time_after") (getCol r "travel_time_before")) := by
  refine ⟨?_, ?_, ?_, ?_⟩
  · exact (c7_inner_join_diff c7keys c7bt c7mt).2.1 [Value.num 3, Value.num 4]
      (by decide) (by decide)
  · have h := ((c7_inner_join_diff c7keys c7bt c7mt).2.2.2.1 "travel_time"
      (by decide) (by decide) (by decide) (by decide) (by decide) (by decide)
      (c7bt.rows.get ⟨0, by decide⟩) (by decide)
      (c7mt.rows.get ⟨0, by decide⟩) (by decide)).1
    rw [h]
    decide
  · have h := ((c7_inner_join_diff c7keys c7bt c7mt).2.2.2.1 "travel_time"
      (by decide) (by decide) (by decide) (by decide) (by decide) (by decide)
      (c7bt.rows.get ⟨0, by decide⟩) (by decide)
      (c7mt.rows.get ⟨0, by decide⟩) (by decide)).2
    rw [h]
    decide
  · exact (c7_inner_join_diff c7keys c7bt c7mt).2.2.2.2.1 (by decide)

/-! ### C1: the threshold filters of the two comparators -/

def c1keys : List String := ["from_node_id", "to_node_id"]

/-- Baseline link performance for C1: travel time 10, volume 100. -/
def c1bt : Table :=
  ⟨["from_node_id", "to_node_id", "travel_time", "volume"],
   [[("from_node_id", Value.num 1), ("to_node_id", Value.num 2),
     ("travel_time", Value.num 10), ("volume", Value.num 100)]]⟩

/-- Modified link performance for C1: travel time unchanged, volume +100. -/
def c1mt : Table :=
  ⟨["from_node_id", "to_node_id", "travel_time", "volume"],
   [[("from_node_id", Value.num 1), ("to_node_id", Value.num 2),
     ("travel_time", Value.num 10), ("volume", Value.num 200)]]⟩

def c1fs : FS :=
  [("Before/link_performance.csv", c1bt), ("After/link_performance.csv", c1mt)]

/-- C1 counterexample: with threshold 5, the joined record has an available
diff column (`volume_diff = 100`) of absolute value ≥ 5, yet the link-level
significant subset is empty — `compare_link_performance` filters on
`travel_time_diff` alone, so the claimed "any available diff column" rule
does not hold for the link comparator. -/
theorem c1_counterexample :
    compare_link_performance c1fs "Before/link_performance.csv"
        "After/link_performance.csv" c1keys 5
      = Except.ok ⟨linkDiffed c1keys c1bt c1mt,
          some (linkSig 5 (linkDiffed c1keys c1bt c1mt)), false⟩
    ∧ (linkSig 5 (linkDiffed c1keys c1bt c1mt)).rows = []
    ∧ "volume_diff" ∈ (linkDiffed c1keys c1bt c1mt).schema
    ∧ (linkDiffed c1keys c1bt c1mt).rows.any
        (fun r => decide (5 ≤ intAbs (getCol r "volume_diff").toInt)) = true := by
  refine ⟨by rfl, by decide, by decide, by decide⟩

/-- C1 amended: the OD comparator flags a joined record iff ANY of its three
diff columns reaches the threshold in absolute value (inclusive), but the
link comparator's significant subset is filtered on `travel_time_diff`
alone — a record is in it iff `|travel_time_diff| ≥ threshold`, with
`volume_diff` playing no part in the filter. -/
theorem c1_amended_threshold_filters :
    (∀ (fs : FS) (bf mf : String) (keys : List String) (th : Int)
        (bdf mdf : Table) (out : LinkCmpOut) (sig : Table),
      fsRead fs bf = some bdf → fsRead fs mf = some mdf →
      compare_link_performance fs bf mf keys th = Except.ok out →
      out.significant = some sig →
      ∀ r : Row, r ∈ sig.rows
        ↔ (r ∈ out.merged.rows
            ∧ th ≤ intAbs (getCol r "travel_time_diff").toInt))
    ∧ (∀ (fs : FS) (bf mf : String) (th : Int) (bdf mdf : Table) (aff : Table),
      fsRead fs bf = some bdf → fsRead fs mf = some mdf →
      detect_affected_OD_pairs fs bf mf th = Except.ok aff →
      ∀ r : Row, r ∈ aff.rows
        ↔ (r ∈ (odDiffed bdf mdf).rows
            ∧ (th ≤ intAbs (getCol r "free_flow_diff").toInt
              ∨ th ≤ intAbs (getCol r "congestion_diff").toInt
              ∨ th ≤ intAbs (getCol r "volume_diff").toInt))) := by
  constructor
  · intro fs bf mf keys th bdf mdf out sig hb hm hcmp hsig
    unfold compare_link_performance at hcmp
    rw [hb, hm] at hcmp
    dsimp only at hcmp
    by_cases h1 : (keys.all
        fun k => decide (k ∈ bdf.schema) && decide (k ∈ mdf.schema)) = true
    · rw [if_pos h1] at hcmp
      by_cases h2 : "travel_time_diff" ∈ (linkDiffed keys bdf mdf).schema
      · rw [if_pos h2] at hcmp
        by_cases h3 : ((linkReportCols keys).all
            fun c => decide (c ∈ (linkDiffed keys bdf mdf).schema)) = true
        · rw [if_pos h3] at hcmp
          injection hcmp with hout
          rw [← hout] at hsig
          injection hsig with hsig'
          intro r
          rw [← hout, ← hsig']
          show r ∈ (linkSig th (linkDiffed keys bdf mdf)).rows
            ↔ (r ∈ (linkDiffed keys bdf mdf).rows
                ∧ th ≤ intAbs (getCol r "travel_time_diff").toInt)
          unfold linkSig
          simp only [List.mem_filter, decide_eq_true_eq]
        · rw [if_neg h3] at hcmp
          cases hcmp
      · rw [if_neg h2] at hcmp
        injection hcmp with hout
        rw [← hout] at hsig
        exact absurd hsig (by intro hh; cases hh)
    · rw [if_neg h1] at hcmp
      cases hcmp
  · intro fs bf mf th bdf mdf aff hb hm hdet
    unfold detect_affected_OD_pairs at hdet
    rw [hb, hm] at hdet
    dsimp only at hdet
    by_cases h1 : (odKeys.all
        fun k => decide (k ∈ bdf.schema) && decide (k ∈ mdf.schema)) = true
    · rw [if_pos h1] at hdet
      by_cases h2 : (odMetricCols.all
          fun c => decide (c ∈ (mergeTables odKeys bdf mdf).schema)) = true
      · rw [if_pos h2] at hdet
        injection hdet with haff
        intro r
        rw [← haff]
        show r ∈ ((odDiffed bdf mdf).rows.filter (odAffPred th))
          ↔ (r ∈ (odDiffed bdf mdf).rows ∧ _)
        simp only [List.mem_filter]
        unfold odAffPred
        simp only [Bool.or_eq_true, decide_eq_true_eq]
        tauto
      · rw [if_neg h2] at hdet
        cases hdet
    · rw [if_neg h1] at hdet
      cases hdet

/-- The single joined record of the C1 run. -/
def c1mrow : Row := (linkDiffed c1keys c1bt c1mt).rows.headI

theorem c1_witness :
    (c1mrow ∈ (linkSig 5 (linkDiffed c1keys c1bt c1mt)).rows
      ↔ (c1mrow ∈ (linkDiffed c1keys c1bt c1mt).rows
          ∧ 5 ≤ intAbs (getCol c1mrow "travel_time_diff").toInt)) :=
  c1_amended_threshold_filters.1 c1fs "Before/link_performance.csv"
    "After/link_performance.csv" c1keys 5 c1bt c1mt
    ⟨linkDiffed c1keys c1bt c1mt,
      some (linkSig 5 (linkDiffed c1keys c1bt c1mt)), false⟩
    (linkSig 5 (linkDiffed c1keys c1bt c1mt))
    (by decide) (by decide) (by rfl) (by rfl) c1mrow

/-! ### C5: missing metric columns -/

theorem addCol_schema_self (t : Table) (c : String) (f : Row → Value) :
    c ∈ (addCol t c f).schema := by
  unfold addCol
  by_cases hc : c ∈ t.schema
  · rw [if_pos hc]; exact hc
  · rw [if_neg hc]; exact List.mem_append_right _ (List.mem_singleton.mpr rfl)

theorem linkDiffed_schema_of_ttDiffed (keys : List String) (bt mt : Table)
    (c : String) (h : c ∈ (linkTTDiffed keys bt mt).schema) :
    c ∈ (linkDiffed keys bt mt).schema := by
  unfold linkDiffed
  by_cases hvol : "volume_before" ∈ (linkTTDiffed keys bt mt).schema
      ∧ "volume_after" ∈ (linkTTDiffed keys bt mt).schema
  · rw [if_pos hvol]; exact addCol_schema_mem _ _ _ _ h
  · rw [if_neg hvol]; exact h

theorem ttDiff_mem_of_ttCols (keys : List String) (bt mt : Table)
    (h : "travel_time_before" ∈ (mergeTables keys bt mt).schema
      ∧ "travel_time_after" ∈ (mergeTables keys bt mt).schema) :
    "travel_time_diff" ∈ (linkDiffed keys bt mt).schema := by
  apply linkDiffed_schema_of_ttDiffed
  unfold linkTTDiffed
  rw [if_pos h]
  exact addCol_schema_self _ _ _

/-- Concrete OD data for the C5 counterexample: the modified OD file lacks
the configured `volume` metric. -/
def c5bod : Table :=
  ⟨["mode", "o_zone_id", "d_zone_id", "total_free_flow_travel_time",
    "total_congestion_travel_time", "volume"],
   [[("mode", Value.str "auto"), ("o_zone_id", Value.num 1),
     ("d_zone_id", Value.num 2),
     ("total_free_flow_travel_time", Value.num 30),
     ("total_congestion_travel_time", Value.num 40),
     ("volume", Value.num 700)]]⟩

def c5modNoVol : Table :=
  ⟨["mode", "o_zone_id", "d_zone_id", "total_free_flow_travel_time",
    "total_congestion_travel_time"],
   [[("mode", Value.str "auto"), ("o_zone_id", Value.num 1),
     ("d_zone_id", Value.num 2),
     ("total_free_flow_travel_time", Value.num 30),
     ("total_congestion_travel_time", Value.num 40)]]⟩

def c5fs : FS :=
  [("Before/od_performance.csv", c5bod), ("After/od_performance.csv", c5modNoVol)]

/-- C5 counterexample: with the `volume` metric absent from the modified OD
input, `detect_affected_OD_pairs` raises a KeyError instead of skipping the
metric with a warning and completing — the missing metric is fatal there. -/
theorem c5_counterexample :
    detect_affected_OD_pairs c5fs "Before/od_performance.csv"
        "After/od_performance.csv" 5 = Except.error CmpErr.keyErr := by rfl

/-- C5 amended: only `compare_link_performance`'s travel_time metric is
skipped non-fatally (with a warning and no diff column).  A missing volume
metric there adds no diff column and no warning, and when `travel_time_diff`
was computed the significant-changes report then fails with a KeyError; and
`detect_affected_OD_pairs` performs no presence checks at all — it fails
with a KeyError whenever any configured metric column is missing from the
merge. -/
theorem c5_amended_missing_metrics :
    (∀ (fs : FS) (bf mf : String) (keys : List String) (th : Int)
        (bdf mdf : Table),
      fsRead fs bf = some bdf → fsRead fs mf = some mdf →
      (keys.all (fun k => decide (k ∈ bdf.schema) && decide (k ∈ mdf.schema)))
        = true →
      ¬ "travel_time_diff" ∈ (linkDiffed keys bdf mdf).schema →
      compare_link_performance fs bf mf keys th
        = Except.ok ⟨linkDiffed keys bdf mdf, none, true⟩)
    ∧ (∀ (fs : FS) (bf mf : String) (keys : List String) (th : Int)
        (bdf mdf : Table),
      fsRead fs bf = some bdf → fsRead fs mf = some mdf →
      (keys.all (fun k => decide (k ∈ bdf.schema) && decide (k ∈ mdf.schema)))
        = true →
      "travel_time_diff" ∈ (linkDiffed keys bdf mdf).schema →
      ¬ ((linkReportCols keys).all
          (fun c => decide (c ∈ (linkDiffed keys bdf mdf).schema))) = true →
      compare_link_performance fs bf mf keys th = Except.error CmpErr.keyErr)
    ∧ (∀ (fs : FS) (bf mf : String) (th : Int) (bdf mdf : Table),
      fsRead fs bf = some bdf → fsRead fs mf = some mdf →
      (odKeys.all (fun k => decide (k ∈ bdf.schema) && decide (k ∈ mdf.schema)))
        = true →
      ¬ (odMetricCols.all
          (fun c => decide (c ∈ (mergeTables odKeys bdf mdf).schema))) = true →
      detect_affected_OD_pairs fs bf mf th = Except.error CmpErr.keyErr) := by
  refine ⟨?_, ?_, ?_⟩
  · intro fs bf mf keys th bdf mdf hb hm hkeys htt
    unfold compare_link_performance
    rw [hb, hm]
    dsimp only
    rw [if_pos hkeys, if_neg htt]
    have hwarn : ¬ ("travel_time_before" ∈ (mergeTables keys bdf mdf).schema
        ∧ "travel_time_after" ∈ (mergeTables keys bdf mdf).schema) := by
      intro hcols
      exact htt (ttDiff_mem_of_ttCols keys bdf mdf hcols)
    rw [decide_eq_false hwarn]
    rfl
  · intro fs bf mf keys th bdf mdf hb hm hkeys htt hrep
    unfold compare_link_performance
    rw [hb, hm]
    dsimp only
    rw [if_pos hkeys, if_pos htt, if_neg hrep]
  · intro fs bf mf th bdf mdf hb hm hkeys hmet
    unfold detect_affected_OD_pairs
    rw [hb, hm]
    dsimp only
    rw [if_pos hkeys, if_neg hmet]

/-- Concrete link data for the C5 witness: both link inputs lack the
`travel_time` metric, so the link comparator warns and completes. -/
def c5btNoTT : Table :=
  ⟨["from_node_id", "to_node_id", "volume"],
   [[("from_node_id", Value.num 1), ("to_node_id", Value.num 2),
     ("volume", Value.num 100)]]⟩

def c5mtNoTT : Table :=
  ⟨["from_node_id", "to_node_id", "volume"],
   [[("from_node_id", Value.num 1), ("to_node_id", Value.num 2),
     ("volume", Value.num 90)]]⟩

def c5fs2 : FS :=
  [("Before/link_performance.csv", c5btNoTT),
   ("After/link_performance.csv", c5mtNoTT)]

theorem c5_witness :
    compare_link_performance c5fs2 "Before/link_performance.csv"
        "After/link_performance.csv" ["from_node_id", "to_node_id"] 5
      = Except.ok ⟨linkDiffed ["from_node_id", "to_node_id"] c5btNoTT c5mtNoTT,
          none, true⟩ :=
  c5_amended_missing_metrics.1 c5fs2 "Before/link_performance.csv"
    "After/link_performance.csv" ["from_node_id", "to_node_id"] 5
    c5btNoTT c5mtNoTT (by decide) (by decide) (by decide) (by decide)

/-! ### C2 and C4: failure behaviour of the editor and the pipeline -/

/-- The opaque engine instantiated as a no-op (its outputs are already in
place), so that runs are reproducible in the witnesses. -/
def idEngine : String → FS → FS := fun _ fs => fs

/-- Whether a pipeline result is a success. -/
def isOkE (e : Except CmpErr (Table × Table)) : Bool :=
  match e with
  | Except.ok _ => true
  | Except.error _ => false

def c2bt : Table :=
  ⟨["from_node_id", "to_node_id", "travel_time", "volume"],
   [[("from_node_id", Value.num 1), ("to_node_id", Value.num 2),
     ("travel_time", Value.num 10), ("volume", Value.num 100)]]⟩

def c2mt : Table :=
  ⟨["from_node_id", "to_node_id", "travel_time", "volume"],
   [[("from_node_id", Value.num 1), ("to_node_id", Value.num 2),
     ("travel_time", Value.num 12), ("volume", Value.num 90)]]⟩

def c2bod : Table :=
  ⟨["mode", "o_zone_id", "d_zone_id", "total_free_flow_travel_time",
    "total_congestion_travel_time", "volume"],
   [[("mode", Value.str "auto"), ("o_zone_id", Value.num 1),
     ("d_zone_id", Value.num 2),
     ("total_free_flow_travel_time", Value.num 30),
     ("total_congestion_travel_time", Value.num 40),
     ("volume", Value.num 700)]]⟩

def c2mod : Table :=
  ⟨["mode", "o_zone_id", "d_zone_id", "total_free_flow_travel_time",
    "total_congestion_travel_time", "volume"],
   [[("mode", Value.str "auto"), ("o_zone_id", Value.num 1),
     ("d_zone_id", Value.num 2),
     ("total_free_flow_travel_time", Value.num 30),
     ("total_congestion_travel_time", Value.num 42),
     ("volume", Value.num 700)]]⟩

/-- Filesystem for the C2 counterexample: all four performance files exist,
but the network file `After/link.csv` for the link-edit step does NOT. -/
def c2fs : FS :=
  [("Before/link_performance.csv", c2bt), ("After/link_performance.csv", c2mt),
   ("Before/od_performance.csv", c2bod), ("After/od_performance.csv", c2mod)]

/-- C2 counterexample: the network file for the link-edit step is missing,
yet the editor swallows the `FileNotFoundError` (printing only), the
remaining pipeline steps all run, the pipeline returns success, and the
final output CSV is written — no error propagates to the caller. -/
theorem c2_counterexample :
    (sort_and_rewrite_GMNS_links [] "link.csv" "After"
        (idEngine "Before" c2fs)).2 = EditOutcome.fileNotFound
    ∧ isOkE (sensitivity_pipeline idEngine "link.csv" [] "Before" "After"
        ["from_node_id", "to_node_id"] 1 c2fs).2 = true
    ∧ (fsRead (sensitivity_pipeline idEngine "link.csv" [] "Before" "After"
        ["from_node_id", "to_node_id"] 1 c2fs).1
        "od_performance_comparison.csv").isSome = true := by
  refine ⟨by rfl, by rfl, by rfl⟩

/-- C2 amended: a failure in a comparison step aborts the remaining steps
and propagates to the caller with no result tables and no output writes,
and completed steps are not rolled back (the filesystem stays as of the
failure); but a failure of the link-edit step itself (missing network
file) is caught inside the editor, and the pipeline continues with the
remaining steps on the unedited filesystem. -/
theorem c2_amended_failure_propagation :
    (∀ (engine : String → FS → FS) (nf : String) (mods : List Mod)
        (b m : String) (keys : List String) (th : Int) (fs : FS),
      fsRead (engine b fs) (m ++ "/" ++ nf) = none →
      sensitivity_pipeline engine nf mods b m keys th fs
        = pipeline_tail (engine m (engine b fs)) b m keys th)
    ∧ (∀ (fs3 : FS) (b m : String) (keys : List String) (th : Int)
        (e : CmpErr),
      compare_link_performance fs3 (b ++ "/link_performance.csv")
        (m ++ "/link_performance.csv") keys th = Except.error e →
      pipeline_tail fs3 b m keys th = (fs3, Except.error e))
    ∧ (∀ (fs3 : FS) (b m : String) (keys : List String) (th : Int)
        (out : LinkCmpOut) (e : CmpErr),
      compare_link_performance fs3 (b ++ "/link_performance.csv")
        (m ++ "/link_performance.csv") keys th = Except.ok out →
      detect_affected_OD_pairs fs3 (b ++ "/od_performance.csv")
        (m ++ "/od_performance.csv") th = Except.error e →
      pipeline_tail fs3 b m keys th = (fs3, Except.error e)) := by
  refine ⟨?_, ?_, ?_⟩
  · intro engine nf mods b m keys th fs h
    unfold sensitivity_pipeline pipeFS3 sort_and_rewrite_GMNS_links
      sort_and_rewrite_GMNS_links_file
    rw [h]
  · intro fs3 b m keys th e h
    unfold pipeline_tail
    rw [h]
  · intro fs3 b m keys th out e hcmp hdet
    unfold pipeline_tail
    rw [hcmp]
    dsimp only
    rw [hdet]

theorem c2_witness :
    pipeline_tail [] "Before" "After" ["from_node_id", "to_node_id"] 1
      = ([], Except.error CmpErr.io) :=
  c2_amended_failure_propagation.2.1 [] "Before" "After"
    ["from_node_id", "to_node_id"] 1 CmpErr.io (by rfl)

/-- Network table for the C4 counterexample: no `from_node_id` column. -/
def c4df : Table :=
  ⟨["link_id", "a_node", "to_node_id"],
   [[("link_id", Value.num 1), ("a_node", Value.num 1),
     ("to_node_id", Value.num 2)]]⟩

def c4bt : Table :=
  ⟨["from_node_id", "to_node_id", "travel_time", "volume"],
   [[("from_node_id", Value.num 1), ("to_node_id", Value.num 2),
     ("travel_time", Value.num 10), ("volume", Value.num 100)]]⟩

def c4mt : Table :=
  ⟨["from_node_id", "to_node_id", "travel_time", "volume"],
   [[("from_node_id", Value.num 1), ("to_node_id", Value.num 2),
     ("travel_time", Value.num 12), ("volume", Value.num 90)]]⟩

def c4bod : Table :=
  ⟨["mode", "o_zone_id", "d_zone_id", "total_free_flow_travel_time",
    "total_congestion_travel_time", "volume"],
   [[("mode", Value.str "auto"), ("o_zone_id", Value.num 1),
     ("d_zone_id", Value.num 2),
     ("total_free_flow_travel_time", Value.num 30),
     ("total_congestion_travel_time", Value.num 40),
     ("volume", Value.num 700)]]⟩

def c4mod : Table :=
  ⟨["mode", "o_zone_id", "d_zone_id", "total_free_flow_travel_time",
    "total_congestion_travel_time", "volume"],
   [[("mode", Value.str "auto"), ("o_zone_id", Value.num 1),
     ("d_zone_id", Value.num 2),
     ("total_free_flow_travel_time", Value.num 30),
     ("total_congestion_travel_time", Value.num 42),
     ("volume", Value.num 700)]]⟩

def c4fs : FS :=
  [("After/link.csv", c4df),
   ("Before/link_performance.csv", c4bt), ("After/link_performance.csv", c4mt),
   ("Before/od_performance.csv", c4bod), ("After/od_performance.csv", c4mod)]

/-- C4 counterexample: the link table lacks `from_node_id`; the editor does
abort without writing (the filesystem is returned unchanged), but it only
prints a diagnostic and returns normally — no SchemaError reaches the
caller, and a calling pipeline completes successfully. -/
theorem c4_counterexample :
    sort_and_rewrite_GMNS_links [] "link.csv" "After" c4fs
      = (c4fs, EditOutcome.missingKeyColumns)
    ∧ isOkE (sensitivity_pipeline idEngine "link.csv" [] "Before" "After"
        ["from_node_id", "to_node_id"] 1 c4fs).2 = true := by
  refine ⟨by rfl, by rfl⟩

/-- C4 amended: when `from_node_id` or `to_node_id` is absent from the
input schema the Link Editor aborts without writing anything back — the
source filesystem is returned unchanged — but no error is signalled to the
caller: the function reports the condition diagnostically and returns
normally. -/
theorem c4_amended_missing_key_columns (mods : List Mod) (path : String)
    (fs : FS) (df : Table) (h1 : fsRead fs path = some df)
    (h2 : ¬ ("from_node_id" ∈ df.schema ∧ "to_node_id" ∈ df.schema)) :
    sort_and_rewrite_GMNS_links_file mods path fs
      = (fs, EditOutcome.missingKeyColumns) := by
  unfold sort_and_rewrite_GMNS_links_file
  rw [h1]
  dsimp only
  rw [if_neg h2]

theorem c4_witness :
    sort_and_rewrite_GMNS_links_file [] "After/link.csv" c4fs
      = (c4fs, EditOutcome.missingKeyColumns) :=
  c4_amended_missing_key_columns [] "After/link.csv" c4fs c4df
    (by rfl) (by decide)

/-! ### C6: what the pipeline persists -/

theorem detect_ok_rows (fs : FS) (bf mf : String) (th : Int) (aff : Table)
    (h : detect_affected_OD_pairs fs bf mf th = Except.ok aff) :
    ∀ r ∈ aff.rows, odAffPred th r = true := by
  unfold detect_affected_OD_pairs at h
  cases hb : fsRead fs bf with
  | none => rw [hb] at h; cases hm : fsRead fs mf <;> rw [hm] at h <;> cases h
  | some bdf =>
    rw [hb] at h
    cases hm : fsRead fs mf with
    | none => rw [hm] at h; cases h
    | some mdf =>
      rw [hm] at h
      dsimp only at h
      by_cases h1 : (odKeys.all
          (fun k => decide (k ∈ bdf.schema) && decide (k ∈ mdf.schema))) = true
      · rw [if_pos h1] at h
        by_cases h2 : (odMetricCols.all
            (fun c => decide (c ∈ (mergeTables odKeys bdf mdf).schema))) = true
        · rw [if_pos h2] at h
          injection h with haff
          intro r hr
          rw [← haff] at hr
          exact (List.mem_filter.mp hr).2
        · rw [if_neg h2] at h; cases h
      · rw [if_neg h1] at h; cases h

theorem compare_ok_merged (fs : FS) (bf mf : String) (keys : List String)
    (th : Int) (out : LinkCmpOut) (bdf mdf : Table)
    (hb : fsRead fs bf = some bdf) (hm : fsRead fs mf = some mdf)
    (h : compare_link_performance fs bf mf keys th = Except.ok out) :
    out.merged = linkDiffed keys bdf mdf := by
  unfold compare_link_performance at h
  rw [hb, hm] at h
  dsimp only at h
  by_cases h1 : (keys.all
      (fun k => decide (k ∈ bdf.schema) && decide (k ∈ mdf.schema))) = true
  · rw [if_pos h1] at h
    by_cases h2 : "travel_time_diff" ∈ (linkDiffed keys bdf mdf).schema
    · rw [if_pos h2] at h
      by_cases h3 : ((linkReportCols keys).all
          (fun c => decide (c ∈ (linkDiffed keys bdf mdf).schema))) = true
      · rw [if_pos h3] at h
        injection h with hout
        rw [← hout]
      · rw [if_neg h3] at h; cases h
    · rw [if_neg h2] at h
      injection h with hout
      rw [← hout]
  · rw [if_neg h1] at h; cases h

/-- C6 amended: on a successful pipeline run, the OD comparison output file
holds the column projection of the affected (threshold-passing) OD subset —
every persisted OD row passes the any-of-three-diffs threshold — but the
link comparison output file holds the column projection of the FULL joined
link table (the comparator's return value), not of its significant
subset. -/
theorem c6_amended_persisted_tables (engine : String → FS → FS)
    (nf : String) (mods : List Mod) (b m : String) (keys : List String)
    (th : Int) (fs fs' : FS) (ld od : Table)
    (h : sensitivity_pipeline engine nf mods b m keys th fs
      = (fs', Except.ok (ld, od))) :
    fsRead fs' "od_performance_comparison.csv"
      = some (selectCols od odOutputCols)
    ∧ fsRead fs' "link_performance_comparison.csv"
      = some (selectCols ld (linkOutputCols keys))
    ∧ (∀ r ∈ od.rows, odAffPred th r = true)
    ∧ (∀ bdf mdf : Table,
        fsRead (pipeFS3 engine nf mods b m fs) (b ++ "/link_performance.csv")
          = some bdf →
        fsRead (pipeFS3 engine nf mods b m fs) (m ++ "/link_performance.csv")
          = some mdf →
        ld = linkDiffed keys bdf mdf) := by
  unfold sensitivity_pipeline at h
  unfold pipeline_tail at h
  cases hcmp : compare_link_performance (pipeFS3 engine nf mods b m fs)
      (b ++ "/link_performance.csv") (m ++ "/link_performance.csv") keys th with
  | error e => rw [hcmp] at h; injection h with h1 h2; cases h2
  | ok linkOut =>
    rw [hcmp] at h
    dsimp only at h
    cases hdet : detect_affected_OD_pairs (pipeFS3 engine nf mods b m fs)
        (b ++ "/od_performance.csv") (m ++ "/od_performance.csv") th with
    | error e => rw [hdet] at h; injection h with h1 h2; cases h2
    | ok odAff =>
      rw [hdet] at h
      dsimp only at h
      by_cases hl : ((linkOutputCols keys).all
          (fun c => decide (c ∈ linkOut.merged.schema))) = true
      · rw [if_pos hl] at h
        by_cases ho : (odOutputCols.all
            (fun c => decide (c ∈ odAff.schema))) = true
        · rw [if_pos ho] at h
          injection h with h1 h2
          injection h2 with h3
          have hld : linkOut.merged = ld := congrArg Prod.fst h3
          have hod : odAff = od := congrArg Prod.snd h3
          refine ⟨?_, ?_, ?_, ?_⟩
          · rw [← h1, ← hod]
            exact fsRead_fsWrite_self _ _ _
          · rw [← h1, ← hld,
              fsRead_fsWrite_ne _ "od_performance_comparison.csv"
                "link_performance_comparison.csv" _ (by decide)]
            exact fsRead_fsWrite_self _ _ _
          · intro r hr
            rw [← hod] at hr
            exact detect_ok_rows _ _ _ _ _ hdet r hr
          · intro bdf mdf hbread hmread
            rw [← hld]
            exact compare_ok_merged _ _ _ _ _ _ _ _ hbread hmread hcmp
        · rw [if_neg ho] at h; injection h with h1 h2; cases h2
      · rw [if_neg hl] at h; injection h with h1 h2; cases h2

/-- Concrete data for the C6 counterexample: two joined link rows, one with
travel_time change 10 (significant at threshold 5) and one with change 0. -/
def c6keys : List String := ["from_node_id", "to_node_id"]

def c6bt : Table :=
  ⟨["from_node_id", "to_node_id", "travel_time", "volume"],
   [[("from_node_id", Value.num 1), ("to_node_id", Value.num 2),
     ("travel_time", Value.num 10), ("volume", Value.num 100)],
    [("from_node_id", Value.num 3), ("to_node_id", Value.num 4),
     ("travel_time", Value.num 20), ("volume", Value.num 50)]]⟩

def c6mt : Table :=
  ⟨["from_node_id", "to_node_id", "travel_time", "volume"],
   [[("from_node_id", Value.num 1), ("to_node_id", Value.num 2),
     ("travel_time", Value.num 10), ("volume", Value.num 100)],
    [("from_node_id", Value.num 3), ("to_node_id", Value.num 4),
     ("travel_time", Value.num 30), ("volume", Value.num 50)]]⟩

def c6bod : Table :=
  ⟨["mode", "o_zone_id", "d_zone_id", "total_free_flow_travel_time",
    "total_congestion_travel_time", "volume"],
   [[("mode", Value.str "auto"), ("o_zone_id", Value.num 1),
     ("d_zone_id", Value.num 2),
     ("total_free_flow_travel_time", Value.num 30),
     ("total_congestion_travel_time", Value.num 40),
     ("volume", Value.num 700)]]⟩

def c6mod : Table :=
  ⟨["mode", "o_zone_id", "d_zone_id", "total_free_flow_travel_time",
    "total_congestion_travel_time", "volume"],
   [[("mode", Value.str "auto"), ("o_zone_id", Value.num 1),
     ("d_zone_id", Value.num 2),
     ("total_free_flow_travel_time", Value.num 30),
     ("total_congestion_travel_time", Value.num 41),
     ("volume", Value.num 700)]]⟩

def c6link : Table :=
  ⟨["link_id", "from_node_id", "to_node_id", "lanes"],
   [[("link_id", Value.num 1), ("from_node_id", Value.num 1),
     ("to_node_id", Value.num 2), ("lanes", Value.num 2)]]⟩

def c6fs : FS :=
  [("After/link.csv", c6link),
   ("Before/link_performance.csv", c6bt), ("After/link_performance.csv", c6mt),
   ("Before/od_performance.csv", c6bod), ("After/od_performance.csv", c6mod)]

/-- C6 counterexample: the pipeline run succeeds, and the persisted link
comparison file contains a row whose travel_time_diff has absolute value 0,
strictly below the threshold 5 — the link output is the full joined table,
not the significant subset. -/
theorem c6_counterexample :
    isOkE (sensitivity_pipeline idEngine "link.csv" [] "Before" "After"
        c6keys 5 c6fs).2 = true
    ∧ ((fsRead (sensitivity_pipeline idEngine "link.csv" [] "Before" "After"
          c6keys 5 c6fs).1 "link_performance_comparison.csv").map
        (fun t => t.rows.any
          (fun r => decide (intAbs (getCol r "travel_time_diff").toInt < 5))))
      = some true := by
  refine ⟨by rfl, by rfl⟩

def c6ld : Table := linkDiffed c6keys c6bt c6mt

def c6od : Table :=
  ⟨(odDiffed c6bod c6mod).schema,
   (odDiffed c6bod c6mod).rows.filter (odAffPred 5)⟩

def c6fsFinal : FS :=
  fsWrite
    (fsWrite (pipeFS3 idEngine "link.csv" [] "Before" "After" c6fs)
      "link_performance_comparison.csv" (selectCols c6ld (linkOutputCols c6keys)))
    "od_performance_comparison.csv" (selectCols c6od odOutputCols)

theorem c6_witness :
    fsRead c6fsFinal "od_performance_comparison.csv"
      = some (selectCols c6od odOutputCols)
    ∧ fsRead c6fsFinal "link_performance_comparison.csv"
      = some (selectCols c6ld (linkOutputCols c6keys)) :=
  ⟨(c6_amended_persisted_tables idEngine "link.csv" [] "Before" "After"
      c6keys 5 c6fs c6fsFinal c6ld c6od (by rfl)).1,
   (c6_amended_persisted_tables idEngine "link.csv" [] "Before" "After"
      c6keys 5 c6fs c6fsFinal c6ld c6od (by rfl)).2.1⟩
